import Mathlib

/-!
# Detective Quest (`algoritmos_avancados.c`)

A shallow embedding of the three data structures of the game and of the
functions that work on them:

* the clue journal, a binary search tree of collected clue texts
  (`PistaColetada`, `adicionarPista`, `listarPistas`);
* the suspect index, a chained hash table with `TAMANHO_HASH` buckets
  (`HashItem`, `funcaoHash`, `inserirNaHash`, `encontrarSuspeito`);
* the mansion, a binary tree of rooms (`Comodo`, `criarSala`), and its
  exploration from the console (`explorarSalas`);
* the tally of the clues that point to an accused suspect
  (`contarPistasPorSuspeito`) and the judgment (`verificarSuspeitoFinal`);
* the program with its fixed data (`mansao`, `tabelaDeMain`, `main`);
* the states of the exploration at its prompts (`proximoEstado`,
  `estadoApos`), which the loop of `explorarSalas` is proved to follow, the
  rooms a call of `explorarSalas` enters (`salasEntradas`), and
  two reference functions the journal and the index are compared with
  (`ordenadasDistintas`, `ultimoValor`).

Conventions of the embedding.

* A C string is the list of its bytes before the terminating NUL, each byte a
  natural number in `1 .. 255`; `[]` is the empty string.
* A pointer to a node is the node itself, `NULL` is a constructor.  A function
  that updates a node in place and returns the pointer is a function that
  returns the updated tree.
* `malloc` is taken to succeed (on failure the program calls `exit`).
* The global array `tabelaHash` is threaded through the functions that read or
  write it.
* Whether plain `char` is signed is left to the C implementation; the functions
  that depend on it take the choice as the parameter `charSigned`.  An
  `unsigned int` has 32 bits.
* The console input is the list of the bytes still to be read, followed by the
  end of the input; the console output is the list of the messages written.
-/

namespace DetectiveQuest

/-! ## Constants -/

/-- Number of buckets: `#define TAMANHO_HASH 10`. -/
def TAMANHO_HASH : Nat := 10

/-- Size of a name buffer: `#define MAX_NOME 50`. -/
def MAX_NOME : Nat := 50

/-- Size of a clue buffer: `#define MAX_PISTA 100`. -/
def MAX_PISTA : Nat := 100

/-! ## The C library functions the program uses -/

/-- Sign of `strcmp(s1, s2)`: the strings are compared byte by byte as
unsigned values, and a string that ends first is the smaller one. -/
def strcmp : List Nat → List Nat → Int
  | [], [] => 0
  | [], _ :: _ => -1
  | _ :: _, [] => 1
  | a :: s1, b :: s2 =>
    if a < b then -1 else if b < a then 1 else strcmp s1 s2

/-- Content of the buffer `dst` after `strncpy(dst, src, n); dst[n] = 0`:
the first `n` bytes of `src`. -/
def strncpy (src : List Nat) (n : Nat) : List Nat :=
  src.take n

/-! ## The clue journal (binary search tree) -/

/-- A `PistaColetada *`: `NULL`, or a node with its text `detalhe` and the
two subtrees `esquerda` and `direita`. -/
inductive PistaColetada where
  | NULL : PistaColetada
  | no (detalhe : List Nat) (esquerda direita : PistaColetada) : PistaColetada
deriving DecidableEq

/-- Recursive insertion, `adicionarPista(raiz, detalhe)`.  An empty tree gets a
fresh node holding the first `MAX_PISTA - 1` bytes of `detalhe`; otherwise
`detalhe` is compared with the text of the node and goes left when smaller,
right when greater, and nowhere when equal. -/
def adicionarPista : PistaColetada → List Nat → PistaColetada
  | .NULL, detalhe => .no (strncpy detalhe (MAX_PISTA - 1)) .NULL .NULL
  | .no d esquerda direita, detalhe =>
    let comparacao := strcmp detalhe d
    if comparacao < 0 then
      .no d (adicionarPista esquerda detalhe) direita
    else if comparacao > 0 then
      .no d esquerda (adicionarPista direita detalhe)
    else
      .no d esquerda direita

/-- The texts `listarPistas(raiz)` prints, one per line, in the order it prints
them: left subtree, node, right subtree. -/
def listarPistas : PistaColetada → List (List Nat)
  | .NULL => []
  | .no d esquerda direita => listarPistas esquerda ++ d :: listarPistas direita

/-- The journal obtained from the empty one by inserting the texts in turn,
each call assigned back as `bst = adicionarPista(bst, texto)`. -/
def inserirTodas (textos : List (List Nat)) : PistaColetada :=
  textos.foldl adicionarPista .NULL

/-- Search tree ordering of a journal: at every node the texts of the left
subtree are smaller than the text of the node, those of the right subtree
greater. -/
def Ordenada : PistaColetada → Prop
  | .NULL => True
  | .no d esquerda direita =>
    (∀ x ∈ listarPistas esquerda, strcmp x d < 0) ∧
    (∀ x ∈ listarPistas direita, strcmp d x < 0) ∧
    Ordenada esquerda ∧ Ordenada direita

/-! ## The suspect index (hash table) -/

/-- A `HashItem` without its `proximo` link: a chain is a list of items. -/
structure HashItem where
  pista : List Nat
  suspeito : List Nat
deriving DecidableEq

/-- The array `tabelaHash`, addressed by bucket index; every bucket is the
chain its pointer leads to, head first.  The C array has `TAMANHO_HASH`
buckets, and `funcaoHash` yields no other index. -/
abbrev TabelaHash := Nat → List HashItem

/-- The table after `inicializarHash()`: every bucket is `NULL`. -/
def inicializarHash : TabelaHash :=
  fun _ => []

/-- Value of a `char` holding the byte `c` after promotion to `int`: the byte
itself, or the byte minus 256 for a high byte where `char` is signed. -/
def charParaInt (charSigned : Bool) (c : Nat) : Int :=
  if charSigned && decide (128 ≤ c) then (c : Int) - 256 else (c : Int)

/-- The loop of `funcaoHash`: `hash = hash + chave[i]` in 32-bit `unsigned int`
arithmetic, for every byte up to the terminator. -/
def funcaoHashLaco (charSigned : Bool) : List Nat → Nat → Nat
  | [], hash => hash
  | c :: resto, hash =>
    funcaoHashLaco charSigned resto
      (((hash : Int) + charParaInt charSigned c) % 4294967296).toNat

/-- Bucket of a key, `funcaoHash(chave)`: the accumulated sum modulo
`TAMANHO_HASH`. -/
def funcaoHash (charSigned : Bool) (chave : List Nat) : Nat :=
  funcaoHashLaco charSigned chave 0 % TAMANHO_HASH

/-- The table after `inserirNaHash(pista, suspeito)`: a new item with the
truncated copies of both strings is put at the head of the chain of the
bucket of `pista`. -/
def inserirNaHash (charSigned : Bool) (tabelaHash : TabelaHash)
    (pista suspeito : List Nat) : TabelaHash :=
  let indice := funcaoHash charSigned pista
  let novoItem : HashItem :=
    { pista := strncpy pista (MAX_PISTA - 1),
      suspeito := strncpy suspeito (MAX_NOME - 1) }
  fun i => if i = indice then novoItem :: tabelaHash i else tabelaHash i

/-- The scan of one chain in `encontrarSuspeito`: the suspect of the first
item whose key compares equal to `pista`, `none` for `NULL`. -/
def encontrarNaLista (pista : List Nat) : List HashItem → Option (List Nat)
  | [] => none
  | atual :: proximo =>
    if strcmp atual.pista pista = 0 then some atual.suspeito
    else encontrarNaLista pista proximo

/-- The lookup `encontrarSuspeito(pista)`: scan of the chain of the bucket of
`pista`. -/
def encontrarSuspeito (charSigned : Bool) (tabelaHash : TabelaHash)
    (pista : List Nat) : Option (List Nat) :=
  encontrarNaLista pista (tabelaHash (funcaoHash charSigned pista))

/-- The table after a sequence of `inserirNaHash(pista, suspeito)` calls, given
as the list of their argument pairs in call order. -/
def inserirVarias (charSigned : Bool) (tabelaHash : TabelaHash)
    (chamadas : List (List Nat × List Nat)) : TabelaHash :=
  chamadas.foldl (fun t c => inserirNaHash charSigned t c.1 c.2) tabelaHash

/-! ## Tally -/

/-- The tally `contarPistasPorSuspeito(bstPistas, suspeitoAcusado)`: left
subtree, then the node (one more when the lookup of its text gives a suspect
that compares equal to the accused), then the right subtree.  The C result is
an `int`; the tally is at most the number of nodes of the journal. -/
def contarPistasPorSuspeito (charSigned : Bool) (tabelaHash : TabelaHash) :
    PistaColetada → List Nat → Nat
  | .NULL, _ => 0
  | .no d esquerda direita, suspeitoAcusado =>
    let contador := 0
    let contador := contador +
      contarPistasPorSuspeito charSigned tabelaHash esquerda suspeitoAcusado
    let contador :=
      match encontrarSuspeito charSigned tabelaHash d with
      | some suspeitoDaPista =>
        if strcmp suspeitoDaPista suspeitoAcusado = 0 then contador + 1
        else contador
      | none => contador
    contador +
      contarPistasPorSuspeito charSigned tabelaHash direita suspeitoAcusado

/-! ## The mansion (binary tree of rooms) -/

/-- A `Comodo *`: `NULL`, or a room with its name, its clue and its two
children.  The test `atual != raiz` of `explorarSalas` compares pointers; it is
embedded as the comparison of the two trees, which gives the same answer for
every room of the tree of `raiz`, a proper subtree being smaller than the
whole. -/
inductive Comodo where
  | NULL : Comodo
  | sala (nome pista : List Nat) (esquerda direita : Comodo) : Comodo
deriving DecidableEq

/-- Number of rooms of a tree. -/
def Comodo.tamanho : Comodo → Nat
  | .NULL => 0
  | .sala _ _ esquerda direita => 1 + esquerda.tamanho + direita.tamanho

/-- The rooms of a tree: the root and the rooms of its two subtrees. -/
def Comodo.salas : Comodo → List Comodo
  | .NULL => []
  | .sala nome pista esquerda direita =>
    .sala nome pista esquerda direita :: (esquerda.salas ++ direita.salas)

/-- The room `criarSala(nome, pista)` returns: truncated copies of both
strings and no children. -/
def criarSala (nome pista : List Nat) : Comodo :=
  .sala (strncpy nome (MAX_NOME - 1)) (strncpy pista (MAX_PISTA - 1)) .NULL .NULL

/-- The room `c` after the two assignments `c->esquerda = esquerda` and
`c->direita = direita`. -/
def ligar (c esquerda direita : Comodo) : Comodo :=
  match c with
  | .NULL => .NULL
  | .sala nome pista _ _ => .sala nome pista esquerda direita

/-! ## Console -/

/-- What the program writes: one constructor for each message, with the values
the message shows. -/
inductive Mensagem where
  | naoPodeIr : Mensagem
  | voceEsta (nome : List Nat) : Mensagem
  | pistaEncontrada (pista : List Nat) : Mensagem
  | pistaAdicionada : Mensagem
  | suspeitoAssociado (suspeito : List Nat) : Mensagem
  | semSuspeito : Mensagem
  | semPista : Mensagem
  | paraOnde : Mensagem
  | bloqueadoEsquerda : Mensagem
  | bloqueadoDireita : Mensagem
  | jaNaRaiz : Mensagem
  | saindo : Mensagem
  | opcaoInvalida : Mensagem
  | julgamento : Mensagem
  | arquivado : Mensagem
  | pistasColetadas (linhas : List (List Nat)) : Mensagem
  | quemAcusa : Mensagem
  | entradaInvalida : Mensagem
  | analise (numPistas : Nat) (acusado : List Nat) : Mensagem
  | culpado (numPistas : Nat) (acusado : List Nat) : Mensagem
  | inocente (numPistas : Nat) (acusado : List Nat) : Mensagem
  | fimJulgamento : Mensagem
  | titulo : Mensagem
  | semExploracao : Mensagem
  | fimDoJogo : Mensagem
deriving DecidableEq

/-- How a function that reads the console ends: it returns, with the journal,
the input not yet read and what it wrote; or it never returns, because the
loop `while (getchar() != 10)` runs at the end of the input, where `getchar`
gives `EOF` for ever, and then the journal and what was written are those of
the moment the loop was entered. -/
inductive Resultado where
  | retornou (bstPistas : PistaColetada) (entrada : List Nat)
      (saida : List Mensagem) : Resultado
  | travou (bstPistas : PistaColetada) (saida : List Mensagem) : Resultado
deriving DecidableEq

/-- The journal of a result. -/
def Resultado.diario : Resultado → PistaColetada
  | .retornou bstPistas _ _ => bstPistas
  | .travou bstPistas _ => bstPistas

/-- What was written in a result. -/
def Resultado.escrito : Resultado → List Mensagem
  | .retornou _ _ saida => saida
  | .travou _ saida => saida

/-- The names of the rooms announced in an output, in order: the rooms
entered. -/
def salasVisitadas : List Mensagem → List (List Nat)
  | [] => []
  | .voceEsta nome :: resto => nome :: salasVisitadas resto
  | _ :: resto => salasVisitadas resto

/-- The verdicts rendered in an output, in order. -/
def veredictos : List Mensagem → List Mensagem
  | [] => []
  | .culpado n a :: resto => .culpado n a :: veredictos resto
  | .inocente n a :: resto => .inocente n a :: veredictos resto
  | _ :: resto => veredictos resto

/-- The white space of the C locale: space, and tab to carriage return. -/
def isspace (c : Nat) : Bool :=
  c = 32 || (9 ≤ c && c ≤ 13)

/-- The lower case letter for an upper case ASCII letter, the byte itself
otherwise (C locale). -/
def tolower (c : Nat) : Nat :=
  if 65 ≤ c ∧ c ≤ 90 then c + 32 else c

/-- A call of `scanf(" %c", &escolha)`: white space is skipped and the next
byte is read; `none` when the input ends first (`scanf` gives `EOF`). -/
def scanfChar : List Nat → Option (Nat × List Nat)
  | [] => none
  | c :: resto => if isspace c then scanfChar resto else some (c, resto)

/-- The loop `while (getchar() != 10);`: the input after the next newline,
`none` when there is no newline left and the loop never ends. -/
def descartarLinha : List Nat → Option (List Nat)
  | [] => none
  | c :: resto => if c = 10 then some resto else descartarLinha resto

/-- The C string held by a buffer that received the bytes `lidos` and a
terminator: the bytes before the first NUL. -/
def comoString (lidos : List Nat) : List Nat :=
  lidos.takeWhile (fun c => c ≠ 0)

/-- A call of `scanf("%49[^\n]", suspeitoAcusado)`: the longest run of bytes
other than newline at the head of the input, `MAX_NOME - 1` at most; `none`
when the run is empty (the result of `scanf` is 0 or `EOF`, not 1). -/
def scanfAcusado (entrada : List Nat) : Option (List Nat × List Nat) :=
  let lidos := (entrada.takeWhile (fun c => c ≠ 10)).take (MAX_NOME - 1)
  if lidos = [] then none else some (comoString lidos, entrada.drop lidos.length)

/-! ## Exploration -/

/-- Lines 105 to 124 of `explorarSalas`: the room is announced; a room with a
clue has it inserted in the journal and looked up in the suspect index. -/
def visitarSala (charSigned : Bool) (tabelaHash : TabelaHash)
    (nome pista : List Nat) (bstPistas : PistaColetada) (saida : List Mensagem) :
    PistaColetada × List Mensagem :=
  let saida := saida ++ [.voceEsta nome]
  if 0 < pista.length then
    let saida := saida ++ [.pistaEncontrada pista]
    let bstPistas := adicionarPista bstPistas pista
    let saida := saida ++ [.pistaAdicionada]
    match encontrarSuspeito charSigned tabelaHash pista with
    | some suspeito => (bstPistas, saida ++ [.suspeitoAssociado suspeito])
    | none => (bstPistas, saida ++ [.semSuspeito])
  else
    (bstPistas, saida ++ [.semPista])

/-- What one pass of the loop of `explorarSalas` does with the choice read:
it enters another room, stays in the room with a message, or leaves. -/
inductive Passo where
  | entrar (destino : Comodo) : Passo
  | ficar (mensagem : Mensagem) : Passo
  | sair : Passo
deriving DecidableEq

/-- Lines 139 to 165 of `explorarSalas`, in the room
`sala nome pista esquerda direita`, for the lower-cased choice: `e` is 101,
`d` is 100, `r` is 114 and `s` is 115. -/
def passo (raiz : Comodo) (nome pista : List Nat) (esquerda direita : Comodo)
    (escolha : Nat) : Passo :=
  if escolha = 101 then
    if esquerda ≠ .NULL then .entrar esquerda else .ficar .bloqueadoEsquerda
  else if escolha = 100 then
    if direita ≠ .NULL then .entrar direita else .ficar .bloqueadoDireita
  else if escolha = 114 then
    if Comodo.sala nome pista esquerda direita ≠ raiz then .entrar raiz
    else .ficar .jaNaRaiz
  else if escolha = 115 then .sair
  else .ficar .opcaoInvalida

mutual
/-- The function `explorarSalas(atual, bstPistas, raiz)` on the input
`entrada`, after `saida` has been written.  The first argument bounds the
number of calls and loop passes; `none` means the bound was reached. -/
def explorarSalasAux (charSigned : Bool) (tabelaHash : TabelaHash) (raiz : Comodo) :
    Nat → Comodo → PistaColetada → List Nat → List Mensagem → Option Resultado
  | 0, _, _, _, _ => none
  | _ + 1, .NULL, bstPistas, entrada, saida =>
    some (.retornou bstPistas entrada (saida ++ [.naoPodeIr]))
  | n + 1, .sala nome pista esquerda direita, bstPistas, entrada, saida =>
    let v := visitarSala charSigned tabelaHash nome pista bstPistas saida
    explorarSalasLaco charSigned tabelaHash raiz n nome pista esquerda direita
      v.1 entrada v.2
/-- The `do ... while` loop of `explorarSalas` in the room
`sala nome pista esquerda direita`: prompt, read of the choice, rest of the
line discarded, and the step the choice selects. -/
def explorarSalasLaco (charSigned : Bool) (tabelaHash : TabelaHash) (raiz : Comodo) :
    Nat → List Nat → List Nat → Comodo → Comodo → PistaColetada → List Nat →
    List Mensagem → Option Resultado
  | 0, _, _, _, _, _, _, _ => none
  | n + 1, nome, pista, esquerda, direita, bstPistas, entrada, saida =>
    let saida := saida ++ [.paraOnde]
    match scanfChar entrada with
    | none => some (.travou bstPistas saida)
    | some (escolha, resto) =>
      match descartarLinha resto with
      | none => some (.travou bstPistas saida)
      | some resto =>
        match passo raiz nome pista esquerda direita (tolower escolha) with
        | .entrar destino =>
          explorarSalasAux charSigned tabelaHash raiz n destino bstPistas resto saida
        | .ficar mensagem =>
          explorarSalasLaco charSigned tabelaHash raiz n nome pista esquerda direita
            bstPistas resto (saida ++ [mensagem])
        | .sair => some (.retornou bstPistas resto (saida ++ [.saindo]))
end

/-- The call `explorarSalas(atual, &bstPistas, raiz)` on the input `entrada`.
Every pass of the loop reads at least two bytes, so `entrada.length + 2`
calls and passes are enough. -/
def explorarSalas (charSigned : Bool) (tabelaHash : TabelaHash)
    (atual : Comodo) (bstPistas : PistaColetada) (raiz : Comodo)
    (entrada : List Nat) : Option Resultado :=
  explorarSalasAux charSigned tabelaHash raiz (entrada.length + 2) atual bstPistas
    entrada []

/-! ## Judgment -/

/-- The call `verificarSuspeitoFinal(bstPistas)` on the input `entrada`. -/
def verificarSuspeitoFinal (charSigned : Bool) (tabelaHash : TabelaHash)
    (bstPistas : PistaColetada) (entrada : List Nat) : Resultado :=
  let saida := [Mensagem.julgamento]
  if bstPistas = .NULL then
    .retornou bstPistas entrada (saida ++ [.arquivado])
  else
    let saida := saida ++ [.pistasColetadas (listarPistas bstPistas), .quemAcusa]
    match scanfAcusado entrada with
    | none =>
      let saida := saida ++ [.entradaInvalida]
      match descartarLinha entrada with
      | none => .travou bstPistas saida
      | some resto => .retornou bstPistas resto saida
    | some (suspeitoAcusado, resto) =>
      match descartarLinha resto with
      | none => .travou bstPistas saida
      | some resto =>
        let numPistas :=
          contarPistasPorSuspeito charSigned tabelaHash bstPistas suspeitoAcusado
        let saida := saida ++ [.analise numPistas suspeitoAcusado]
        let saida :=
          if numPistas ≥ 2 then saida ++ [.culpado numPistas suspeitoAcusado]
          else saida ++ [.inocente numPistas suspeitoAcusado]
        .retornou bstPistas resto (saida ++ [.fimJulgamento])

/-! ## The fixed data and `main` -/

/-- The bytes of the literal "Entrada Principal" (line 422, UTF-8, 17 bytes). -/
def nomeEntradaPrincipal : List Nat :=
  [69, 110, 116, 114, 97, 100, 97, 32, 80, 114, 105, 110, 99, 105, 112, 97,
   108]

/-- The bytes of the literal "Um casaco de lã de ovelha foi deixado na entrada." (line 422, UTF-8, 50 bytes). -/
def pistaCasaco : List Nat :=
  [85, 109, 32, 99, 97, 115, 97, 99, 111, 32, 100, 101, 32, 108, 195, 163,
   32, 100, 101, 32, 111, 118, 101, 108, 104, 97, 32, 102, 111, 105, 32,
   100, 101, 105, 120, 97, 100, 111, 32, 110, 97, 32, 101, 110, 116, 114,
   97, 100, 97, 46]

/-- The bytes of the literal "Sala de Estar" (line 425, UTF-8, 13 bytes). -/
def nomeSalaDeEstar : List Nat :=
  [83, 97, 108, 97, 32, 100, 101, 32, 69, 115, 116, 97, 114]

/-- The bytes of the literal "O cinzeiro está cheio de pontas de cigarro artesanais." (line 425, UTF-8, 55 bytes). -/
def pistaCinzeiro : List Nat :=
  [79, 32, 99, 105, 110, 122, 101, 105, 114, 111, 32, 101, 115, 116, 195,
   161, 32, 99, 104, 101, 105, 111, 32, 100, 101, 32, 112, 111, 110, 116,
   97, 115, 32, 100, 101, 32, 99, 105, 103, 97, 114, 114, 111, 32, 97, 114,
   116, 101, 115, 97, 110, 97, 105, 115, 46]

/-- The bytes of the literal "Cozinha" (line 426, UTF-8, 7 bytes). -/
def nomeCozinha : List Nat :=
  [67, 111, 122, 105, 110, 104, 97]

/-- The bytes of the literal "A faca de chef mais cara sumiu do bloco de facas." (line 426, UTF-8, 49 bytes). -/
def pistaFaca : List Nat :=
  [65, 32, 102, 97, 99, 97, 32, 100, 101, 32, 99, 104, 101, 102, 32, 109,
   97, 105, 115, 32, 99, 97, 114, 97, 32, 115, 117, 109, 105, 117, 32, 100,
   111, 32, 98, 108, 111, 99, 111, 32, 100, 101, 32, 102, 97, 99, 97, 115,
   46]

/-- The bytes of the literal "Biblioteca" (line 429, UTF-8, 10 bytes). -/
def nomeBiblioteca : List Nat :=
  [66, 105, 98, 108, 105, 111, 116, 101, 99, 97]

/-- The bytes of the literal "O livro 'Como Falsificar Identidades' está aberto na página 32." (line 429, UTF-8, 65 bytes). -/
def pistaLivro : List Nat :=
  [79, 32, 108, 105, 118, 114, 111, 32, 39, 67, 111, 109, 111, 32, 70, 97,
   108, 115, 105, 102, 105, 99, 97, 114, 32, 73, 100, 101, 110, 116, 105,
   100, 97, 100, 101, 115, 39, 32, 101, 115, 116, 195, 161, 32, 97, 98, 101,
   114, 116, 111, 32, 110, 97, 32, 112, 195, 161, 103, 105, 110, 97, 32, 51,
   50, 46]

/-- The bytes of the literal "Quarto do Mordomo" (line 430, UTF-8, 17 bytes). -/
def nomeQuartoDoMordomo : List Nat :=
  [81, 117, 97, 114, 116, 111, 32, 100, 111, 32, 77, 111, 114, 100, 111,
   109, 111]

/-- The bytes of the literal "Uma nota de amor secreta para a Cozinheira." (line 430, UTF-8, 43 bytes). -/
def pistaNotaDeAmor : List Nat :=
  [85, 109, 97, 32, 110, 111, 116, 97, 32, 100, 101, 32, 97, 109, 111, 114,
   32, 115, 101, 99, 114, 101, 116, 97, 32, 112, 97, 114, 97, 32, 97, 32,
   67, 111, 122, 105, 110, 104, 101, 105, 114, 97, 46]

/-- The bytes of the literal "Despensa" (line 433, UTF-8, 8 bytes). -/
def nomeDespensa : List Nat :=
  [68, 101, 115, 112, 101, 110, 115, 97]

/-- The bytes of the literal "Um par de luvas de borracha com terra foi jogado aqui." (line 433, UTF-8, 54 bytes). -/
def pistaLuvas : List Nat :=
  [85, 109, 32, 112, 97, 114, 32, 100, 101, 32, 108, 117, 118, 97, 115, 32,
   100, 101, 32, 98, 111, 114, 114, 97, 99, 104, 97, 32, 99, 111, 109, 32,
   116, 101, 114, 114, 97, 32, 102, 111, 105, 32, 106, 111, 103, 97, 100,
   111, 32, 97, 113, 117, 105, 46]

/-- The bytes of the literal "Jardim" (line 434, UTF-8, 6 bytes). -/
def nomeJardim : List Nat :=
  [74, 97, 114, 100, 105, 109]

/-- The bytes of the literal "Um bilhete rasgado menciona 'encontre-me na biblioteca'." (line 434, UTF-8, 56 bytes). -/
def pistaBilhete : List Nat :=
  [85, 109, 32, 98, 105, 108, 104, 101, 116, 101, 32, 114, 97, 115, 103, 97,
   100, 111, 32, 109, 101, 110, 99, 105, 111, 110, 97, 32, 39, 101, 110, 99,
   111, 110, 116, 114, 101, 45, 109, 101, 32, 110, 97, 32, 98, 105, 98, 108,
   105, 111, 116, 101, 99, 97, 39, 46]

/-- The bytes of the literal "Jardineiro" (line 442, UTF-8, 10 bytes). -/
def jardineiro : List Nat :=
  [74, 97, 114, 100, 105, 110, 101, 105, 114, 111]

/-- The bytes of the literal "Cozinheira" (line 443, UTF-8, 10 bytes). -/
def cozinheira : List Nat :=
  [67, 111, 122, 105, 110, 104, 101, 105, 114, 97]

/-- The bytes of the literal "Mordomo" (line 445, UTF-8, 7 bytes). -/
def mordomo : List Nat :=
  [77, 111, 114, 100, 111, 109, 111]

/-- The mansion `main` builds (lines 422 to 434): the entrance at the root,
the living room on its left with the library and the room of the butler, the
kitchen on its right with the pantry and the garden. -/
def mansao : Comodo :=
  ligar (criarSala nomeEntradaPrincipal pistaCasaco)
    (ligar (criarSala nomeSalaDeEstar pistaCinzeiro)
      (criarSala nomeBiblioteca pistaLivro)
      (criarSala nomeQuartoDoMordomo pistaNotaDeAmor))
    (ligar (criarSala nomeCozinha pistaFaca)
      (criarSala nomeDespensa pistaLuvas)
      (criarSala nomeJardim pistaBilhete))

/-- The suspect index `main` builds: `inicializarHash()` (line 411) and the
seven calls of `inserirNaHash` (lines 442 to 448), in their order. -/
def tabelaDeMain (charSigned : Bool) : TabelaHash :=
  let t := inicializarHash
  let t := inserirNaHash charSigned t pistaCasaco jardineiro
  let t := inserirNaHash charSigned t pistaCinzeiro cozinheira
  let t := inserirNaHash charSigned t pistaFaca cozinheira
  let t := inserirNaHash charSigned t pistaLivro mordomo
  let t := inserirNaHash charSigned t pistaNotaDeAmor mordomo
  let t := inserirNaHash charSigned t pistaLuvas jardineiro
  inserirNaHash charSigned t pistaBilhete mordomo

/-- The program: the index and the mansion are built, the exploration starts
at the root with an empty journal, and the judgment follows when the journal
is not empty.  The journal of the result is the one held before the memory is
released. -/
def main (charSigned : Bool) (entrada : List Nat) : Option Resultado :=
  let tabelaHash := tabelaDeMain charSigned
  let raiz := mansao
  match explorarSalas charSigned tabelaHash raiz .NULL raiz entrada with
  | none => none
  | some (.travou bstPistas saida) => some (.travou bstPistas (.titulo :: saida))
  | some (.retornou bstPistas resto saida) =>
    if bstPistas ≠ .NULL then
      match verificarSuspeitoFinal charSigned tabelaHash bstPistas resto with
      | .retornou bstPistas resto saidaFinal =>
        some (.retornou bstPistas resto
          (.titulo :: saida ++ saidaFinal ++ [.fimDoJogo]))
      | .travou bstPistas saidaFinal =>
        some (.travou bstPistas (.titulo :: saida ++ saidaFinal))
    else
      some (.retornou bstPistas resto
        (.titulo :: saida ++ [.semExploracao, .fimDoJogo]))

/-! ## Observations, states and reference functions -/

/-- Name of a room, the empty string for `NULL`. -/
def Comodo.nomeDe : Comodo → List Nat
  | .NULL => []
  | .sala nome _ _ _ => nome

/-- Clue of a room, the empty string for `NULL`. -/
def Comodo.pistaDe : Comodo → List Nat
  | .NULL => []
  | .sala _ pista _ _ => pista

/-- What the buffers `char nome[MAX_NOME]` and `char pista[MAX_PISTA]` of a
`Comodo` guarantee: in every room of the tree the name has at most
`MAX_NOME - 1` bytes and the clue at most `MAX_PISTA - 1`. -/
def Comodo.bemFormado : Comodo → Bool
  | .NULL => true
  | .sala nome pista esquerda direita =>
    decide (nome.length ≤ MAX_NOME - 1) && decide (pista.length ≤ MAX_PISTA - 1) &&
      esquerda.bemFormado && direita.bemFormado

/-- The clues announced in an output, in order: `explorarSalas` announces the
clue of a room when it enters the room and the clue is not empty. -/
def pistasEncontradas : List Mensagem → List (List Nat)
  | [] => []
  | .pistaEncontrada pista :: resto => pista :: pistasEncontradas resto
  | _ :: resto => pistasEncontradas resto

/-- The room and the journal at the next prompt of `explorarSalas`, when the
lower-cased choice `escolha` is read at the prompt of the room `atual` with
the journal `bstPistas`; `none` when `explorarSalas` returns instead. -/
def proximoEstado (charSigned : Bool) (tabelaHash : TabelaHash) (raiz atual : Comodo)
    (bstPistas : PistaColetada) (escolha : Nat) : Option (Comodo × PistaColetada) :=
  match atual with
  | .NULL => none
  | .sala nome pista esquerda direita =>
    match passo raiz nome pista esquerda direita escolha with
    | .entrar .NULL => none
    | .entrar (.sala n p e d) =>
      some (.sala n p e d, (visitarSala charSigned tabelaHash n p bstPistas []).1)
    | .ficar _ => some (.sala nome pista esquerda direita, bstPistas)
    | .sair => none

/-- The room and the journal at the prompt after a sequence of lower-cased
choices, none of which makes `explorarSalas` return. -/
def estadoApos (charSigned : Bool) (tabelaHash : TabelaHash) (raiz : Comodo) :
    Comodo × PistaColetada → List Nat → Option (Comodo × PistaColetada)
  | estado, [] => some estado
  | estado, escolha :: resto =>
    match proximoEstado charSigned tabelaHash raiz estado.1 estado.2 escolha with
    | none => none
    | some seguinte => estadoApos charSigned tabelaHash raiz seguinte resto

/-- The room and the journal at the first prompt of the call
`explorarSalas(raiz, &bstPistas, raiz)`; `none` when `raiz` is `NULL`. -/
def estadoInicial (charSigned : Bool) (tabelaHash : TabelaHash) (raiz : Comodo)
    (bstPistas : PistaColetada) : Option (Comodo × PistaColetada) :=
  match raiz with
  | .NULL => none
  | .sala nome pista _ _ =>
    some (raiz, (visitarSala charSigned tabelaHash nome pista bstPistas []).1)

/-- Lines 452 to 468 of `main` with the suspect index and the mansion as
parameters: exploration from the root with an empty journal, then the
judgment when the journal is not empty. -/
def jogar (charSigned : Bool) (tabelaHash : TabelaHash) (raiz : Comodo)
    (entrada : List Nat) : Option Resultado :=
  match explorarSalas charSigned tabelaHash raiz .NULL raiz entrada with
  | none => none
  | some (.travou bstPistas saida) => some (.travou bstPistas (.titulo :: saida))
  | some (.retornou bstPistas resto saida) =>
    if bstPistas ≠ .NULL then
      match verificarSuspeitoFinal charSigned tabelaHash bstPistas resto with
      | .retornou bstPistas resto saidaFinal =>
        some (.retornou bstPistas resto
          (.titulo :: saida ++ saidaFinal ++ [.fimDoJogo]))
      | .travou bstPistas saidaFinal =>
        some (.travou bstPistas (.titulo :: saida ++ saidaFinal))
    else
      some (.retornou bstPistas resto
        (.titulo :: saida ++ [.semExploracao, .fimDoJogo]))

/-- Reference for the listing of a journal: the distinct texts of a sequence,
sorted by `strcmp`. -/
def ordenadasDistintas (textos : List (List Nat)) : List (List Nat) :=
  (textos.dedup).insertionSort (fun a b => strcmp a b ≤ 0)

/-- Reference for the suspect index, a finite map given by a sequence of
calls: the value of the last call whose key is `chave`, `none` when no call
has that key. -/
def ultimoValor : List (List Nat × List Nat) → List Nat → Option (List Nat)
  | [], _ => none
  | c :: resto, chave =>
    match ultimoValor resto chave with
    | some valor => some valor
    | none => if c.1 = chave then some c.2 else none

/-- The messages `explorarSalas` writes (lines 101 to 164). -/
def daExploracao : Mensagem → Bool
  | .naoPodeIr => true
  | .voceEsta _ => true
  | .pistaEncontrada _ => true
  | .pistaAdicionada => true
  | .suspeitoAssociado _ => true
  | .semSuspeito => true
  | .semPista => true
  | .paraOnde => true
  | .bloqueadoEsquerda => true
  | .bloqueadoDireita => true
  | .jaNaRaiz => true
  | .saindo => true
  | .opcaoInvalida => true
  | _ => false

/-- Lines 130 to 137 of `explorarSalas`: the choice is read, the rest of its
line is discarded and the choice is lower-cased; `none` when the input ends
before the choice or before the end of its line. -/
def lerEscolha (entrada : List Nat) : Option (Nat × List Nat) :=
  match scanfChar entrada with
  | none => none
  | some (escolha, resto) =>
    match descartarLinha resto with
    | none => none
    | some resto => some (tolower escolha, resto)

/-- The input left after the lower-cased choices `escolhas` have been read
from it, one pass of the loop each; `none` when the input ends first or gives
other choices. -/
def lerEscolhas : List Nat → List Nat → Option (List Nat)
  | entrada, [] => some entrada
  | entrada, escolha :: escolhas =>
    match lerEscolha entrada with
    | none => none
    | some (lida, resto) =>
      if lida = escolha then lerEscolhas resto escolhas else none

mutual
/-- The rooms a call `explorarSalas(atual, bstPistas, raiz)` enters on the input
`entrada`, in order: `atual` when it is not `NULL` (line 100), then the rooms
of the calls its loop makes.  The first argument bounds the number of calls
and loop passes, as in `explorarSalasAux`. -/
def salasEntradasAux (raiz : Comodo) : Nat → Comodo → List Nat → List Comodo
  | 0, _, _ => []
  | _ + 1, .NULL, _ => []
  | n + 1, .sala nome pista esquerda direita, entrada =>
    .sala nome pista esquerda direita ::
      salasEntradasLaco raiz n nome pista esquerda direita entrada
/-- The rooms entered from the loop of `explorarSalas` in the room
`sala nome pista esquerda direita`: none when the input ends or the choice
read is the exit, those of the call made when the choice leads to a room,
those of the next pass when the choice keeps the room (lines 130 to 165). -/
def salasEntradasLaco (raiz : Comodo) :
    Nat → List Nat → List Nat → Comodo → Comodo → List Nat → List Comodo
  | 0, _, _, _, _, _ => []
  | n + 1, nome, pista, esquerda, direita, entrada =>
    match lerEscolha entrada with
    | none => []
    | some (escolha, resto) =>
      match passo raiz nome pista esquerda direita escolha with
      | .entrar destino => salasEntradasAux raiz n destino resto
      | .ficar _ => salasEntradasLaco raiz n nome pista esquerda direita resto
      | .sair => []
end

/-- The rooms the call `explorarSalas(atual, &bstPistas, raiz)` enters on the
input `entrada`, with the bound of `explorarSalas`. -/
def salasEntradas (raiz atual : Comodo) (entrada : List Nat) : List Comodo :=
  salasEntradasAux raiz (entrada.length + 2) atual entrada

/-- A result continues a journal and an output by entering exactly the rooms
`entradas`, all rooms of the mansion: its output announces their names and
their non-empty clues after those of `saida`, in order, and its journal
holds the texts of `bstPistas` and the non-empty clues of these rooms. -/
def ContinuaCom (raiz : Comodo) (bstPistas : PistaColetada) (saida : List Mensagem)
    (entradas : List Comodo) (r : Resultado) : Prop :=
  salasVisitadas r.escrito = salasVisitadas saida ++ entradas.map Comodo.nomeDe ∧
    pistasEncontradas r.escrito
      = pistasEncontradas saida ++
          (entradas.map Comodo.pistaDe).filter (fun p => decide (0 < p.length)) ∧
    (∀ t, t ∈ listarPistas r.diario ↔
      t ∈ listarPistas bstPistas ∨ ∃ c ∈ entradas, c.pistaDe = t ∧ t ≠ []) ∧
    ∀ c ∈ entradas, c ∈ raiz.salas

/-! ## Properties of `strcmp` -/

theorem strcmp_self (s : List Nat) : strcmp s s = 0 := by
  induction s with
  | nil => rfl
  | cons a s ih => simp [strcmp, ih]

theorem strcmp_eq_zero_iff (s t : List Nat) : strcmp s t = 0 ↔ s = t := by
  induction s generalizing t with
  | nil => cases t <;> simp [strcmp]
  | cons a s ih =>
    cases t with
    | nil => simp [strcmp]
    | cons b t =>
      simp only [strcmp]
      split_ifs with h1 h2
      · simp; omega
      · simp; omega
      · have hab : a = b := by omega
        simp [ih, hab]

theorem strcmp_gt_iff (s t : List Nat) : 0 < strcmp s t ↔ strcmp t s < 0 := by
  induction s generalizing t with
  | nil => cases t <;> simp [strcmp]
  | cons a s ih =>
    cases t with
    | nil => simp [strcmp]
    | cons b t =>
      simp only [strcmp]
      split_ifs <;> first | omega | simp | exact ih t

theorem strcmp_lt_trans (s t u : List Nat) (h1 : strcmp s t < 0)
    (h2 : strcmp t u < 0) : strcmp s u < 0 := by
  induction s generalizing t u with
  | nil =>
    cases u with
    | nil => cases t <;> simp [strcmp] at h1 h2
    | cons c u => simp [strcmp]
  | cons a s ih =>
    cases t with
    | nil => simp [strcmp] at h1
    | cons b t =>
      cases u with
      | nil => simp [strcmp] at h2
      | cons c u =>
        simp only [strcmp] at h1 h2 ⊢
        split_ifs at h1 h2 ⊢ <;> first | omega | simp | exact ih t u h1 h2

/-! ## The clue journal -/

theorem strncpy_of_length_le (s : List Nat) (n : Nat) (h : s.length ≤ n) :
    strncpy s n = s := by
  simp [strncpy, List.take_of_length_le h]

theorem mem_listarPistas_adicionarPista (j : PistaColetada) (t x : List Nat)
    (hx : x ∈ listarPistas (adicionarPista j t)) :
    x ∈ listarPistas j ∨ x = strncpy t (MAX_PISTA - 1) := by
  induction j with
  | NULL => simpa [adicionarPista, listarPistas] using hx
  | no d e r ihe ihr =>
    simp only [adicionarPista] at hx
    split_ifs at hx
    · simp only [listarPistas, List.mem_append, List.mem_cons] at hx ⊢
      rcases hx with hx | hx | hx
      · rcases ihe hx with h | h
        · exact Or.inl (Or.inl h)
        · exact Or.inr h
      · exact Or.inl (Or.inr (Or.inl hx))
      · exact Or.inl (Or.inr (Or.inr hx))
    · simp only [listarPistas, List.mem_append, List.mem_cons] at hx ⊢
      rcases hx with hx | hx | hx
      · exact Or.inl (Or.inl hx)
      · exact Or.inl (Or.inr (Or.inl hx))
      · rcases ihr hx with h | h
        · exact Or.inl (Or.inr (Or.inr h))
        · exact Or.inr h
    · exact Or.inl hx

theorem ordenada_adicionarPista (j : PistaColetada) (t : List Nat)
    (ht : t.length ≤ MAX_PISTA - 1) (hj : Ordenada j) :
    Ordenada (adicionarPista j t) := by
  induction j with
  | NULL => simp [adicionarPista, Ordenada, listarPistas]
  | no d e r ihe ihr =>
    obtain ⟨hl, hr, he, hd⟩ := hj
    simp only [adicionarPista]
    split_ifs with h1 h2
    · refine ⟨?_, hr, ihe he, hd⟩
      intro x hx
      rcases mem_listarPistas_adicionarPista e t x hx with h | h
      · exact hl x h
      · rw [h, strncpy_of_length_le t _ ht]
        exact h1
    · refine ⟨hl, ?_, he, ihr hd⟩
      intro x hx
      rcases mem_listarPistas_adicionarPista r t x hx with h | h
      · exact hr x h
      · rw [h, strncpy_of_length_le t _ ht]
        exact (strcmp_gt_iff t d).mp h2
    · exact ⟨hl, hr, he, hd⟩

theorem ordenada_inserirTodas (textos : List (List Nat))
    (h : ∀ t ∈ textos, t.length ≤ MAX_PISTA - 1) : Ordenada (inserirTodas textos) := by
  have gen : ∀ (ts : List (List Nat)) (j : PistaColetada),
      (∀ t ∈ ts, t.length ≤ MAX_PISTA - 1) → Ordenada j →
      Ordenada (ts.foldl adicionarPista j) := by
    intro ts
    induction ts with
    | nil => intro j _ hj; exact hj
    | cons t ts ih =>
      intro j hts hj
      exact ih (adicionarPista j t) (fun u hu => hts u (List.mem_cons_of_mem t hu))
        (ordenada_adicionarPista j t (hts t (List.mem_cons_self t ts)) hj)
  exact gen textos .NULL h trivial

theorem pairwise_listarPistas (j : PistaColetada) (hj : Ordenada j) :
    (listarPistas j).Pairwise (fun a b => strcmp a b < 0) := by
  induction j with
  | NULL => simp [listarPistas]
  | no d e r ihe ihr =>
    obtain ⟨hl, hr, he, hd⟩ := hj
    simp only [listarPistas]
    rw [List.pairwise_append]
    refine ⟨ihe he, ?_, ?_⟩
    · rw [List.pairwise_cons]
      exact ⟨hr, ihr hd⟩
    · intro a ha b hb
      rcases List.mem_cons.mp hb with h | h
      · rw [h]; exact hl a ha
      · exact strcmp_lt_trans a d b (hl a ha) (hr b h)

theorem adicionarPista_twice (j : PistaColetada) (t : List Nat)
    (ht : t.length ≤ MAX_PISTA - 1) :
    adicionarPista (adicionarPista j t) t = adicionarPista j t := by
  induction j with
  | NULL =>
    simp [adicionarPista, strncpy_of_length_le t _ ht, strcmp_self]
  | no d e r ihe ihr =>
    simp only [adicionarPista]
    split_ifs with h1 h2
    · simp only [adicionarPista, if_pos h1, ihe]
    · simp only [adicionarPista, if_neg h1, if_pos h2, ihr]
    · simp only [adicionarPista, if_neg h1, if_neg h2]

/-- C1 (as stated, refuted): a text of 100 bytes inserted twice is listed
twice, both times as its first 99 bytes, so the listing is not strictly
ascending. -/
theorem C1_long_text_listed_twice :
    listarPistas (inserirTodas [List.replicate 100 97, List.replicate 100 97])
        = [List.replicate 99 97, List.replicate 99 97] ∧
      ¬ (listarPistas (inserirTodas
          [List.replicate 100 97, List.replicate 100 97])).Pairwise
            (fun a b => strcmp a b < 0) := by
  decide

/-- C1 (amended): for every finite sequence of clue texts of at most
`MAX_PISTA - 1` = 99 bytes each, inserting them one after another with
`adicionarPista` into the empty journal gives a tree whose listing by
`listarPistas` is strictly ascending under `strcmp` (every text is smaller
than every later one), hence has no two equal texts. -/
theorem C1_listing_strictly_ascending (textos : List (List Nat))
    (h : ∀ t ∈ textos, t.length ≤ MAX_PISTA - 1) :
    (listarPistas (inserirTodas textos)).Pairwise (fun a b => strcmp a b < 0) ∧
      (listarPistas (inserirTodas textos)).Nodup := by
  have hp := pairwise_listarPistas _ (ordenada_inserirTodas textos h)
  refine ⟨hp, ?_⟩
  refine hp.imp ?_
  intro a b hab heq
  rw [heq, strcmp_self] at hab
  exact absurd hab (by decide)

theorem C1_listing_strictly_ascending_witness :
    (∀ t ∈ [[98, 97], [97], [98, 97], [99]], t.length ≤ MAX_PISTA - 1) ∧
      (listarPistas (inserirTodas [[98, 97], [97], [98, 97], [99]])).Pairwise
        (fun a b => strcmp a b < 0) ∧
      (listarPistas (inserirTodas [[98, 97], [97], [98, 97], [99]])).Nodup :=
  ⟨by decide, C1_listing_strictly_ascending [[98, 97], [97], [98, 97], [99]] (by decide)⟩

/-- C2 (as stated, refuted): in the empty journal, a text of 100 bytes
inserted twice is listed twice, inserted once it is listed once. -/
theorem C2_long_text_not_idempotent :
    listarPistas (adicionarPista
        (adicionarPista (inserirTodas []) (List.replicate 100 97))
        (List.replicate 100 97))
      ≠ listarPistas (adicionarPista (inserirTodas []) (List.replicate 100 97)) := by
  decide

/-- C2 (amended): for every journal built by `adicionarPista` and every clue
text `t` of at most `MAX_PISTA - 1` = 99 bytes, inserting `t` twice gives the
same listing as inserting `t` once. -/
theorem C2_insert_twice_same_listing (textos : List (List Nat)) (t : List Nat)
    (ht : t.length ≤ MAX_PISTA - 1) :
    listarPistas (adicionarPista (adicionarPista (inserirTodas textos) t) t)
      = listarPistas (adicionarPista (inserirTodas textos) t) := by
  rw [adicionarPista_twice _ t ht]

theorem C2_insert_twice_same_listing_witness :
    [98, 97].length ≤ MAX_PISTA - 1 ∧
      listarPistas (adicionarPista (adicionarPista (inserirTodas [[99], [97]]) [98, 97])
          [98, 97])
        = listarPistas (adicionarPista (inserirTodas [[99], [97]]) [98, 97]) :=
  ⟨by decide, C2_insert_twice_same_listing [[99], [97]] [98, 97] (by decide)⟩

/-! ## The suspect index -/

theorem funcaoHash_lt (charSigned : Bool) (chave : List Nat) :
    funcaoHash charSigned chave < TAMANHO_HASH :=
  Nat.mod_lt _ (by decide)

theorem encontrarNaLista_eq_none (pista : List Nat) (l : List HashItem)
    (h : ∀ item ∈ l, item.pista ≠ pista) : encontrarNaLista pista l = none := by
  induction l with
  | nil => rfl
  | cons a l ih =>
    have ha : strcmp a.pista pista ≠ 0 := fun h0 =>
      h a (List.mem_cons_self a l) ((strcmp_eq_zero_iff _ _).mp h0)
    simp only [encontrarNaLista, if_neg ha]
    exact ih (fun item hi => h item (List.mem_cons_of_mem a hi))

theorem mem_inserirVarias (charSigned : Bool) (chamadas : List (List Nat × List Nat))
    (tabelaHash : TabelaHash) (i : Nat) (item : HashItem)
    (h : item ∈ inserirVarias charSigned tabelaHash chamadas i) :
    item ∈ tabelaHash i ∨
      ∃ c ∈ chamadas, item.pista = strncpy c.1 (MAX_PISTA - 1) := by
  induction chamadas generalizing tabelaHash with
  | nil => exact Or.inl h
  | cons c cs ih =>
    simp only [inserirVarias, List.foldl_cons] at h
    rcases ih (inserirNaHash charSigned tabelaHash c.1 c.2) h with h1 | ⟨c2, hc2, he⟩
    · simp only [inserirNaHash] at h1
      split_ifs at h1
      · rcases List.mem_cons.mp h1 with h2 | h2
        · exact Or.inr ⟨c, List.mem_cons_self c cs, by rw [h2]⟩
        · exact Or.inl h2
      · exact Or.inl h1
    · exact Or.inr ⟨c2, List.mem_cons_of_mem c hc2, he⟩

theorem encontrarSuspeito_inserirVarias_none (charSigned : Bool)
    (chamadas : List (List Nat × List Nat)) (chave : List Nat)
    (h : ∀ c ∈ chamadas, strncpy c.1 (MAX_PISTA - 1) ≠ chave) :
    encontrarSuspeito charSigned (inserirVarias charSigned inicializarHash chamadas) chave
      = none := by
  apply encontrarNaLista_eq_none
  intro item hi heq
  rcases mem_inserirVarias charSigned chamadas inicializarHash _ item hi with h1 | ⟨c, hc, he⟩
  · simp [inicializarHash] at h1
  · exact h c hc (by rw [← he, heq])

theorem charParaInt_low (charSigned : Bool) (c : Nat)
    (h : charSigned = true → c < 128) : charParaInt charSigned c = (c : Int) := by
  unfold charParaInt
  cases charSigned with
  | false => simp
  | true =>
    have hc : ¬ 128 ≤ c := by have := h rfl; omega
    simp [hc]

theorem funcaoHashLaco_eq_sum (charSigned : Bool) (chave : List Nat) (hash : Nat)
    (h1 : charSigned = true → ∀ c ∈ chave, c < 128)
    (h2 : hash + chave.sum < 4294967296) :
    funcaoHashLaco charSigned chave hash = hash + chave.sum := by
  induction chave generalizing hash with
  | nil => simp [funcaoHashLaco]
  | cons c resto ih =>
    simp only [List.sum_cons] at h2
    have hc : charParaInt charSigned c = (c : Int) :=
      charParaInt_low charSigned c (fun hs => h1 hs c (List.mem_cons_self c resto))
    have hstep : (((hash : Int) + (c : Int)) % 4294967296).toNat = hash + c := by
      omega
    simp only [funcaoHashLaco, hc, hstep, List.sum_cons]
    rw [ih (hash + c) (fun hs x hx => h1 hs x (List.mem_cons_of_mem c hx)) (by omega)]
    omega

theorem funcaoHashLaco_replicate (charSigned : Bool) (n c hash : Nat) :
    ((funcaoHashLaco charSigned (List.replicate n c) hash : Nat) : Int) % 4294967296
      = ((hash : Int) + (n : Int) * charParaInt charSigned c) % 4294967296 := by
  induction n generalizing hash with
  | zero => simp [funcaoHashLaco]
  | succ n ih =>
    simp only [List.replicate_succ, funcaoHashLaco]
    rw [ih]
    have hnn : 0 ≤ ((hash : Int) + charParaInt charSigned c) % 4294967296 :=
      Int.emod_nonneg _ (by decide)
    rw [Int.toNat_of_nonneg hnn, Int.emod_add_emod]
    congr 1
    push_cast
    ring

theorem funcaoHashLaco_lt (charSigned : Bool) (chave : List Nat) (hash : Nat)
    (h : hash < 4294967296) : funcaoHashLaco charSigned chave hash < 4294967296 := by
  induction chave generalizing hash with
  | nil => simpa [funcaoHashLaco] using h
  | cons c resto ih =>
    simp only [funcaoHashLaco]
    apply ih
    have h1 : 0 ≤ ((hash : Int) + charParaInt charSigned c) % 4294967296 :=
      Int.emod_nonneg _ (by decide)
    have h2 : ((hash : Int) + charParaInt charSigned c) % 4294967296 < 4294967296 :=
      Int.emod_lt_of_pos _ (by decide)
    omega

theorem funcaoHash_replicate (charSigned : Bool) (n c : Nat) :
    funcaoHash charSigned (List.replicate n c)
      = (((n : Int) * charParaInt charSigned c) % 4294967296).toNat % TAMANHO_HASH := by
  have h1 := funcaoHashLaco_replicate charSigned n c 0
  have h2 := funcaoHashLaco_lt charSigned (List.replicate n c) 0 (by decide)
  unfold funcaoHash
  generalize funcaoHashLaco charSigned (List.replicate n c) 0 = x at h1 h2
  congr 1
  have h3 : (x : Int) % 4294967296 = x := Int.emod_eq_of_lt (by omega) (by omega)
  rw [h3] at h1
  generalize (n : Int) * charParaInt charSigned c = y at h1
  omega

theorem sum_replicate_bytes (n c : Nat) : (List.replicate n c).sum = n * c := by
  simp [List.sum_replicate]

set_option maxRecDepth 100000 in
/-- C3 (as stated, refuted): on the empty table, a value of 50 bytes is
found again as its first 49 bytes only, and a key of 100 bytes is not found
at all after its insertion. -/
theorem C3_long_strings_not_found_again :
    encontrarSuspeito true (inserirNaHash true inicializarHash [97] (List.replicate 50 98))
        [97] = some (List.replicate 49 98) ∧
      encontrarSuspeito false
        (inserirNaHash false inicializarHash [97] (List.replicate 50 98)) [97]
        ≠ some (List.replicate 50 98) ∧
      encontrarSuspeito true
        (inserirNaHash true inicializarHash [97] (List.replicate 50 98)) [97]
        ≠ some (List.replicate 50 98) ∧
      encontrarSuspeito true
        (inserirNaHash true inicializarHash (List.replicate 100 97) [98])
        (List.replicate 100 97) = none := by
  decide

/-- C3 (amended): for every table state, every key of at most
`MAX_PISTA - 1` = 99 bytes and every value of at most `MAX_NOME - 1` = 49
bytes, after `inserirNaHash(key, value)` the call `encontrarSuspeito(key)`
returns a suspect equal to `value`. -/
theorem C3_lookup_after_insert (charSigned : Bool) (tabelaHash : TabelaHash)
    (chave valor : List Nat) (hk : chave.length ≤ MAX_PISTA - 1)
    (hv : valor.length ≤ MAX_NOME - 1) :
    encontrarSuspeito charSigned (inserirNaHash charSigned tabelaHash chave valor) chave
      = some valor := by
  simp [encontrarSuspeito, inserirNaHash, encontrarNaLista,
    strncpy_of_length_le _ _ hk, strncpy_of_length_le _ _ hv, strcmp_self]

theorem C3_lookup_after_insert_witness :
    [97, 98].length ≤ MAX_PISTA - 1 ∧ [74, 111].length ≤ MAX_NOME - 1 ∧
      encontrarSuspeito true
        (inserirNaHash true (inserirNaHash true inicializarHash [98, 97] [77]) [97, 98]
          [74, 111]) [97, 98] = some [74, 111] :=
  ⟨by decide, by decide,
    C3_lookup_after_insert true (inserirNaHash true inicializarHash [98, 97] [77])
      [97, 98] [74, 111] (by decide) (by decide)⟩

set_option maxRecDepth 100000 in
/-- C4 (as stated, refuted): after the single call that inserts the key of
99 bytes `a` followed by the byte `d`, the key of 99 bytes `a`, which no call
inserted, is found: the stored key is cut to 99 bytes, and both keys fall in
the same bucket. -/
theorem C4_never_inserted_key_found :
    List.replicate 99 97 ≠ List.replicate 99 97 ++ [100] ∧
      encontrarSuspeito true
        (inserirVarias true inicializarHash [(List.replicate 99 97 ++ [100], [77])])
        (List.replicate 99 97) = some [77] ∧
      encontrarSuspeito false
        (inserirVarias false inicializarHash [(List.replicate 99 97 ++ [100], [77])])
        (List.replicate 99 97) = some [77] := by
  decide

/-- C4 (amended): for every sequence of `inserirNaHash` calls whose keys have
at most `MAX_PISTA - 1` = 99 bytes, applied to a table initialised by
`inicializarHash`, and every key string that was not the key of any of those
calls, `encontrarSuspeito(key)` returns none (`NULL`). -/
theorem C4_lookup_of_absent_key (charSigned : Bool)
    (chamadas : List (List Nat × List Nat)) (chave : List Nat)
    (hlen : ∀ c ∈ chamadas, c.1.length ≤ MAX_PISTA - 1)
    (habs : ∀ c ∈ chamadas, c.1 ≠ chave) :
    encontrarSuspeito charSigned (inserirVarias charSigned inicializarHash chamadas) chave
      = none := by
  apply encontrarSuspeito_inserirVarias_none
  intro c hc
  rw [strncpy_of_length_le _ _ (hlen c hc)]
  exact habs c hc

theorem C4_lookup_of_absent_key_witness :
    (∀ c ∈ [([97, 98], [77]), ([98, 97], [74])], c.1.length ≤ MAX_PISTA - 1) ∧
      (∀ c ∈ [([97, 98], [77]), ([98, 97], [74])], c.1 ≠ [97, 98, 99]) ∧
      encontrarSuspeito true
        (inserirVarias true inicializarHash [([97, 98], [77]), ([98, 97], [74])])
        [97, 98, 99] = none :=
  ⟨by decide, by decide,
    C4_lookup_of_absent_key true [([97, 98], [77]), ([98, 97], [74])] [97, 98, 99]
      (by decide) (by decide)⟩

/-- C5: for every input string, `funcaoHash` returns a bucket index in the
range 0..9, below `TAMANHO_HASH` = 10, and two calls on equal strings return
the same index. -/
theorem C5_funcaoHash_in_range (charSigned : Bool) (chave : List Nat) :
    funcaoHash charSigned chave < TAMANHO_HASH ∧ TAMANHO_HASH = 10 ∧
      ∀ outra : List Nat, outra = chave →
        funcaoHash charSigned outra = funcaoHash charSigned chave :=
  ⟨funcaoHash_lt charSigned chave, rfl, fun _ h => by rw [h]⟩

theorem C5_funcaoHash_in_range_witness :
    funcaoHash true pistaCasaco < TAMANHO_HASH ∧ TAMANHO_HASH = 10 ∧
      ∀ outra : List Nat, outra = pistaCasaco →
        funcaoHash true outra = funcaoHash true pistaCasaco :=
  C5_funcaoHash_in_range true pistaCasaco

/-- C6 (as stated, refuted): where `char` is signed, the key of the two
bytes 195 and 97 has the byte sum 292 and the bucket 6, not 2; the clue of
the entrance, a key of the program with the two bytes of the letter a with
tilde, has a byte sum that ends in 7 and the bucket 5; and the key of the
single byte 195, whose `char` value is -61, has the bucket 5, not 9.  Where
`char` is unsigned, the key of 16843010 bytes 255 has a byte sum that is a
multiple of 10 and the bucket 4, the 32-bit sum having wrapped around. -/
theorem C6_bucket_differs_from_byte_sum :
    (funcaoHash true [195, 97] = 6 ∧ [195, 97].sum % TAMANHO_HASH = 2) ∧
      (funcaoHash true pistaCasaco = 5 ∧ pistaCasaco.sum % TAMANHO_HASH = 7) ∧
      (funcaoHash true [195] = 5 ∧ charParaInt true 195 % (TAMANHO_HASH : Int) = 9) ∧
      (funcaoHash false (List.replicate 16843010 255) = 4 ∧
        (List.replicate 16843010 255).sum % TAMANHO_HASH = 0) := by
  refine ⟨by decide, by decide, by decide, ?_, ?_⟩
  · rw [funcaoHash_replicate]
    decide
  · rw [sum_replicate_bytes]
    decide

/-- C6 (amended): for every key whose bytes add up to less than 2^32 and,
where `char` is signed, are all below 128 (ASCII), `funcaoHash(key)` equals
the sum of the byte values of the key, taken modulo the bucket count 10. -/
theorem C6_funcaoHash_is_byte_sum_mod (charSigned : Bool) (chave : List Nat)
    (hascii : charSigned = true → ∀ c ∈ chave, c < 128)
    (hsum : chave.sum < 4294967296) :
    funcaoHash charSigned chave = chave.sum % 10 := by
  unfold funcaoHash TAMANHO_HASH
  rw [funcaoHashLaco_eq_sum charSigned chave 0 hascii (by omega)]
  simp

theorem C6_funcaoHash_is_byte_sum_mod_witness :
    (true = true → ∀ c ∈ jardineiro, c < 128) ∧ jardineiro.sum < 4294967296 ∧
      funcaoHash true jardineiro = jardineiro.sum % 10 :=
  ⟨by decide, by decide,
    C6_funcaoHash_is_byte_sum_mod true jardineiro (by decide) (by decide)⟩

set_option maxRecDepth 100000 in
/-- C7 (as stated, refuted): on the empty table, after a first value and then
a second value of 50 bytes for the same key, the lookup of the key returns
the first 49 bytes of the second value, which is not that value. -/
theorem C7_long_value_not_returned :
    encontrarSuspeito true
        (inserirNaHash true (inserirNaHash true inicializarHash [97] [98]) [97]
          (List.replicate 50 99)) [97] = some (List.replicate 49 99) ∧
      encontrarSuspeito false
        (inserirNaHash false (inserirNaHash false inicializarHash [97] [98]) [97]
          (List.replicate 50 99)) [97] = some (List.replicate 49 99) ∧
      List.replicate 49 99 ≠ List.replicate 50 99 := by
  decide

/-- C7 (amended): for every table state, every key of at most
`MAX_PISTA - 1` = 99 bytes and all values `v1`, `v2` of at most
`MAX_NOME - 1` = 49 bytes: after `inserirNaHash(key, v1)` followed by
`inserirNaHash(key, v2)` both associations are in the chain of the bucket of
the key (the chain grew by two entries, that of `v2` at the head), and
`encontrarSuspeito(key)` returns `v2`, the most recently inserted one. -/
theorem C7_second_insert_shadows_first (charSigned : Bool) (tabelaHash : TabelaHash)
    (chave v1 v2 : List Nat) (hk : chave.length ≤ MAX_PISTA - 1)
    (h1 : v1.length ≤ MAX_NOME - 1) (h2 : v2.length ≤ MAX_NOME - 1) :
    inserirNaHash charSigned (inserirNaHash charSigned tabelaHash chave v1) chave v2
        (funcaoHash charSigned chave)
      = { pista := chave, suspeito := v2 } :: { pista := chave, suspeito := v1 } ::
          tabelaHash (funcaoHash charSigned chave) ∧
      encontrarSuspeito charSigned
        (inserirNaHash charSigned (inserirNaHash charSigned tabelaHash chave v1) chave v2)
        chave = some v2 := by
  refine ⟨?_, ?_⟩
  · simp [inserirNaHash, strncpy_of_length_le _ _ hk, strncpy_of_length_le _ _ h1,
      strncpy_of_length_le _ _ h2]
  · simp [encontrarSuspeito, inserirNaHash, encontrarNaLista,
      strncpy_of_length_le _ _ hk, strncpy_of_length_le _ _ h2, strcmp_self]

theorem C7_second_insert_shadows_first_witness :
    [97, 98].length ≤ MAX_PISTA - 1 ∧ [77].length ≤ MAX_NOME - 1 ∧
      [74, 111].length ≤ MAX_NOME - 1 ∧
      inserirNaHash true (inserirNaHash true inicializarHash [97, 98] [77]) [97, 98]
          [74, 111] (funcaoHash true [97, 98])
        = { pista := [97, 98], suspeito := [74, 111] } ::
            { pista := [97, 98], suspeito := [77] } ::
            inicializarHash (funcaoHash true [97, 98]) ∧
      encontrarSuspeito true
        (inserirNaHash true (inserirNaHash true inicializarHash [97, 98] [77]) [97, 98]
          [74, 111]) [97, 98] = some [74, 111] :=
  ⟨by decide, by decide, by decide,
    C7_second_insert_shadows_first true inicializarHash [97, 98] [77] [74, 111]
      (by decide) (by decide) (by decide)⟩

/-! ## Tally and judgment -/

/-- C8: for every journal, table state and accused name,
`contarPistasPorSuspeito(journal, accused)` is the number of journal entries
whose text `encontrarSuspeito` resolves to a suspect equal to the accused;
entries whose lookup returns none are not counted, and the result is 0 for the
empty journal. -/
theorem C8_tally_counts_matching_entries (charSigned : Bool) (tabelaHash : TabelaHash)
    (bstPistas : PistaColetada) (suspeitoAcusado : List Nat) :
    contarPistasPorSuspeito charSigned tabelaHash bstPistas suspeitoAcusado
        = (listarPistas bstPistas).countP
            (fun d => decide (encontrarSuspeito charSigned tabelaHash d
              = some suspeitoAcusado)) ∧
      contarPistasPorSuspeito charSigned tabelaHash .NULL suspeitoAcusado = 0 := by
  refine ⟨?_, rfl⟩
  induction bstPistas with
  | NULL => rfl
  | no d e r ihe ihr =>
    simp only [contarPistasPorSuspeito, listarPistas, List.countP_append,
      List.countP_cons, ihe, ihr]
    cases hd : encontrarSuspeito charSigned tabelaHash d with
    | none => simp
    | some s =>
      by_cases hs : s = suspeitoAcusado
      · simp [hs, strcmp_self]
        rw [Nat.add_assoc, Nat.add_comm 1]
      · have h0 : strcmp s suspeitoAcusado ≠ 0 := fun h =>
          hs ((strcmp_eq_zero_iff _ _).mp h)
        simp [hs, h0]

/-- C9: for every non-empty journal and every accused name read successfully
(the `scanf` of the name gives 1 and the rest of its line is discarded up to
the newline), `verificarSuspeitoFinal` renders the guilty verdict (CULPADO)
if `contarPistasPorSuspeito(journal, accused)` is at least 2 and the
not-proven verdict (INOCENTE) if it is below 2; exactly one verdict is
rendered. -/
theorem C9_verdict_by_threshold (charSigned : Bool) (tabelaHash : TabelaHash)
    (bstPistas : PistaColetada) (entrada suspeitoAcusado r1 r2 : List Nat)
    (hne : bstPistas ≠ .NULL)
    (hs : scanfAcusado entrada = some (suspeitoAcusado, r1))
    (hd : descartarLinha r1 = some r2) :
    (2 ≤ contarPistasPorSuspeito charSigned tabelaHash bstPistas suspeitoAcusado →
        verificarSuspeitoFinal charSigned tabelaHash bstPistas entrada
          = .retornou bstPistas r2
              [.julgamento, .pistasColetadas (listarPistas bstPistas), .quemAcusa,
                .analise
                  (contarPistasPorSuspeito charSigned tabelaHash bstPistas suspeitoAcusado)
                  suspeitoAcusado,
                .culpado
                  (contarPistasPorSuspeito charSigned tabelaHash bstPistas suspeitoAcusado)
                  suspeitoAcusado,
                .fimJulgamento]) ∧
      (contarPistasPorSuspeito charSigned tabelaHash bstPistas suspeitoAcusado < 2 →
        verificarSuspeitoFinal charSigned tabelaHash bstPistas entrada
          = .retornou bstPistas r2
              [.julgamento, .pistasColetadas (listarPistas bstPistas), .quemAcusa,
                .analise
                  (contarPistasPorSuspeito charSigned tabelaHash bstPistas suspeitoAcusado)
                  suspeitoAcusado,
                .inocente
                  (contarPistasPorSuspeito charSigned tabelaHash bstPistas suspeitoAcusado)
                  suspeitoAcusado,
                .fimJulgamento]) ∧
      (veredictos
        (verificarSuspeitoFinal charSigned tabelaHash bstPistas entrada).escrito).length
        = 1 := by
  by_cases hn : 2 ≤ contarPistasPorSuspeito charSigned tabelaHash bstPistas suspeitoAcusado
  · have hv : verificarSuspeitoFinal charSigned tabelaHash bstPistas entrada
        = .retornou bstPistas r2
            [.julgamento, .pistasColetadas (listarPistas bstPistas), .quemAcusa,
              .analise
                (contarPistasPorSuspeito charSigned tabelaHash bstPistas suspeitoAcusado)
                suspeitoAcusado,
              .culpado
                (contarPistasPorSuspeito charSigned tabelaHash bstPistas suspeitoAcusado)
                suspeitoAcusado,
              .fimJulgamento] := by
      simp [verificarSuspeitoFinal, hne, hs, hd, hn]
    refine ⟨fun _ => hv, fun h => absurd hn (by omega), ?_⟩
    rw [hv]
    rfl
  · have hv : verificarSuspeitoFinal charSigned tabelaHash bstPistas entrada
        = .retornou bstPistas r2
            [.julgamento, .pistasColetadas (listarPistas bstPistas), .quemAcusa,
              .analise
                (contarPistasPorSuspeito charSigned tabelaHash bstPistas suspeitoAcusado)
                suspeitoAcusado,
              .inocente
                (contarPistasPorSuspeito charSigned tabelaHash bstPistas suspeitoAcusado)
                suspeitoAcusado,
              .fimJulgamento] := by
      simp [verificarSuspeitoFinal, hne, hs, hd, hn]
    refine ⟨fun h => absurd h hn, fun _ => hv, ?_⟩
    rw [hv]
    rfl

set_option maxRecDepth 100000 in
theorem C9_verdict_by_threshold_witness :
    adicionarPista .NULL pistaCasaco ≠ .NULL ∧
      scanfAcusado (jardineiro ++ [10]) = some (jardineiro, [10]) ∧
      descartarLinha [10] = some [] ∧
      contarPistasPorSuspeito true (tabelaDeMain true) (adicionarPista .NULL pistaCasaco)
        jardineiro = 1 ∧
      veredictos (verificarSuspeitoFinal true (tabelaDeMain true)
        (adicionarPista .NULL pistaCasaco) (jardineiro ++ [10])).escrito
        = [.inocente 1 jardineiro] ∧
      (veredictos (verificarSuspeitoFinal true (tabelaDeMain true)
        (adicionarPista .NULL pistaCasaco) (jardineiro ++ [10])).escrito).length = 1 :=
  ⟨by decide, by decide, by decide, by decide, by decide,
    (C9_verdict_by_threshold true (tabelaDeMain true) (adicionarPista .NULL pistaCasaco)
      (jardineiro ++ [10]) jardineiro [10] [] (by decide) (by decide) (by decide)).2.2⟩

/-! ## Exploration -/

theorem Comodo.tamanho_le_of_mem_salas (c raiz : Comodo) (h : c ∈ raiz.salas) :
    c.tamanho ≤ raiz.tamanho := by
  induction raiz with
  | NULL => simp [Comodo.salas] at h
  | sala nome pista e d ihe ihd =>
    simp only [Comodo.salas, List.mem_cons, List.mem_append] at h
    rcases h with h | h | h
    · rw [h]
    · have := ihe h
      simp only [Comodo.tamanho]
      omega
    · have := ihd h
      simp only [Comodo.tamanho]
      omega

/-- A room below the root is not the root: on the rooms of the tree of `raiz`
the comparison of trees agrees with the comparison of pointers. -/
theorem Comodo.ne_raiz_of_mem_filhos (c : Comodo) (nome pista : List Nat)
    (esquerda direita : Comodo) (h : c ∈ esquerda.salas ∨ c ∈ direita.salas) :
    c ≠ .sala nome pista esquerda direita := by
  intro heq
  have hsize : c.tamanho = 1 + esquerda.tamanho + direita.tamanho := by
    rw [heq]
    rfl
  rcases h with h | h
  · have := Comodo.tamanho_le_of_mem_salas c esquerda h
    omega
  · have := Comodo.tamanho_le_of_mem_salas c direita h
    omega

theorem scanfChar_length (entrada resto : List Nat) (c : Nat)
    (h : scanfChar entrada = some (c, resto)) : resto.length + 1 ≤ entrada.length := by
  induction entrada with
  | nil => simp [scanfChar] at h
  | cons b r ih =>
    simp only [scanfChar] at h
    split_ifs at h
    · have := ih h
      simp only [List.length_cons]
      omega
    · simp only [Option.some.injEq, Prod.mk.injEq] at h
      simp [h.2]

theorem descartarLinha_length (entrada resto : List Nat)
    (h : descartarLinha entrada = some resto) : resto.length + 1 ≤ entrada.length := by
  induction entrada with
  | nil => simp [descartarLinha] at h
  | cons b r ih =>
    simp only [descartarLinha] at h
    split_ifs at h
    · simp only [Option.some.injEq] at h
      simp [h]
    · have := ih h
      simp only [List.length_cons]
      omega

theorem explorarSalasAux_isSome (charSigned : Bool) (tabelaHash : TabelaHash)
    (raiz : Comodo) (n : Nat) :
    (∀ atual bstPistas entrada saida, entrada.length + 2 ≤ n →
      (explorarSalasAux charSigned tabelaHash raiz n atual bstPistas entrada
        saida).isSome = true) ∧
    (∀ nome pista esquerda direita bstPistas entrada saida, entrada.length + 1 ≤ n →
      (explorarSalasLaco charSigned tabelaHash raiz n nome pista esquerda direita
        bstPistas entrada saida).isSome = true) := by
  induction n with
  | zero =>
    refine ⟨?_, ?_⟩
    · intro _ _ entrada _ h
      omega
    · intro _ _ _ _ _ entrada _ h
      omega
  | succ n ih =>
    obtain ⟨ihE, ihL⟩ := ih
    refine ⟨?_, ?_⟩
    · intro atual bstPistas entrada saida h
      cases atual with
      | NULL => simp [explorarSalasAux]
      | sala nome pista esquerda direita =>
        simp only [explorarSalasAux]
        exact ihL _ _ _ _ _ _ _ (by omega)
    · intro nome pista esquerda direita bstPistas entrada saida h
      simp only [explorarSalasLaco]
      cases h1 : scanfChar entrada with
      | none => simp
      | some p =>
        obtain ⟨escolha, resto⟩ := p
        have hl1 := scanfChar_length entrada resto escolha h1
        cases h2 : descartarLinha resto with
        | none => simp [h2]
        | some resto2 =>
          have hl2 := descartarLinha_length resto resto2 h2
          cases h3 : passo raiz nome pista esquerda direita (tolower escolha) with
          | entrar destino =>
            simp only [h2, h3]
            exact ihE destino bstPistas resto2 _ (by omega)
          | ficar mensagem =>
            simp only [h2, h3]
            exact ihL nome pista esquerda direita bstPistas resto2 _ (by omega)
          | sair => simp [h2, h3]

/-- The bound of `explorarSalas` is never reached: on every input the call
returns or blocks for ever at the end of the input. -/
theorem explorarSalas_isSome (charSigned : Bool) (tabelaHash : TabelaHash)
    (atual : Comodo) (bstPistas : PistaColetada) (raiz : Comodo) (entrada : List Nat) :
    (explorarSalas charSigned tabelaHash atual bstPistas raiz entrada).isSome = true :=
  (explorarSalasAux_isSome charSigned tabelaHash raiz (entrada.length + 2)).1
    atual bstPistas entrada [] (Nat.le_refl _)

set_option maxRecDepth 100000 in
/-- C10: scenario B on the mansion and the suspect index `main` builds.  The
input is the six command lines `e`, `e`, `r`, `d`, `e`, `s` and the line
`Jardineiro`.  The exploration enters the entrance, the living room, the
library, the entrance again, the kitchen and the pantry, and returns with the
five clues of these rooms in the journal; of these, the clue of the entrance
(wool coat) and the clue of the pantry (muddy gloves) resolve to
`Jardineiro`, so the tally is exactly 2, and `main` renders the guilty
verdict with that tally and no other verdict. -/
theorem C10_scenario_B_guilty (charSigned : Bool) :
    explorarSalas charSigned (tabelaDeMain charSigned) mansao .NULL mansao
        ([101, 10, 101, 10, 114, 10, 100, 10, 101, 10, 115, 10] ++ jardineiro ++ [10])
      = some (.retornou
          (inserirTodas
            [pistaCasaco, pistaCinzeiro, pistaLivro, pistaCasaco, pistaFaca, pistaLuvas])
          (jardineiro ++ [10])
          [.voceEsta nomeEntradaPrincipal, .pistaEncontrada pistaCasaco,
            .pistaAdicionada, .suspeitoAssociado jardineiro, .paraOnde,
            .voceEsta nomeSalaDeEstar, .pistaEncontrada pistaCinzeiro,
            .pistaAdicionada, .suspeitoAssociado cozinheira, .paraOnde,
            .voceEsta nomeBiblioteca, .pistaEncontrada pistaLivro,
            .pistaAdicionada, .suspeitoAssociado mordomo, .paraOnde,
            .voceEsta nomeEntradaPrincipal, .pistaEncontrada pistaCasaco,
            .pistaAdicionada, .suspeitoAssociado jardineiro, .paraOnde,
            .voceEsta nomeCozinha, .pistaEncontrada pistaFaca,
            .pistaAdicionada, .suspeitoAssociado cozinheira, .paraOnde,
            .voceEsta nomeDespensa, .pistaEncontrada pistaLuvas,
            .pistaAdicionada, .suspeitoAssociado jardineiro, .paraOnde,
            .saindo]) ∧
      (explorarSalas charSigned (tabelaDeMain charSigned) mansao .NULL mansao
          ([101, 10, 101, 10, 114, 10, 100, 10, 101, 10, 115, 10] ++ jardineiro
            ++ [10])).map (fun r => salasVisitadas r.escrito)
        = some [nomeEntradaPrincipal, nomeSalaDeEstar, nomeBiblioteca,
            nomeEntradaPrincipal, nomeCozinha, nomeDespensa] ∧
      listarPistas (inserirTodas
          [pistaCasaco, pistaCinzeiro, pistaLivro, pistaCasaco, pistaFaca, pistaLuvas])
        = [pistaFaca, pistaCinzeiro, pistaLivro, pistaCasaco, pistaLuvas] ∧
      (listarPistas (inserirTodas
          [pistaCasaco, pistaCinzeiro, pistaLivro, pistaCasaco, pistaFaca,
            pistaLuvas])).filter
          (fun d => decide (encontrarSuspeito charSigned (tabelaDeMain charSigned) d
            = some jardineiro))
        = [pistaCasaco, pistaLuvas] ∧
      contarPistasPorSuspeito charSigned (tabelaDeMain charSigned)
          (inserirTodas
            [pistaCasaco, pistaCinzeiro, pistaLivro, pistaCasaco, pistaFaca, pistaLuvas])
          jardineiro = 2 ∧
      (main charSigned
          ([101, 10, 101, 10, 114, 10, 100, 10, 101, 10, 115, 10] ++ jardineiro
            ++ [10])).map (fun r => veredictos r.escrito)
        = some [.culpado 2 jardineiro] := by
  cases charSigned <;> decide

/-- The program is `jogar` on the index and the mansion it builds. -/
theorem main_eq_jogar (charSigned : Bool) (entrada : List Nat) :
    main charSigned entrada
      = jogar charSigned (tabelaDeMain charSigned) mansao entrada :=
  rfl

set_option maxRecDepth 100000 in
/-- C11: scenario A on the mansion and the suspect index `main` builds.  The
input is the command line `s` and the line `Jardineiro`.  The exploration
enters the entrance only and returns with its clue (wool coat) as the whole
journal; that clue resolves to `Jardineiro`, so the tally is exactly 1, and
`main` renders the not-proven verdict with that tally and no other
verdict. -/
theorem C11_scenario_A_not_proven (charSigned : Bool) :
    explorarSalas charSigned (tabelaDeMain charSigned) mansao .NULL mansao
        ([115, 10] ++ jardineiro ++ [10])
      = some (.retornou (inserirTodas [pistaCasaco]) (jardineiro ++ [10])
          [.voceEsta nomeEntradaPrincipal, .pistaEncontrada pistaCasaco,
            .pistaAdicionada, .suspeitoAssociado jardineiro, .paraOnde, .saindo]) ∧
      listarPistas (inserirTodas [pistaCasaco]) = [pistaCasaco] ∧
      (listarPistas (inserirTodas [pistaCasaco])).filter
          (fun d => decide (encontrarSuspeito charSigned (tabelaDeMain charSigned) d
            = some jardineiro))
        = [pistaCasaco] ∧
      contarPistasPorSuspeito charSigned (tabelaDeMain charSigned)
          (inserirTodas [pistaCasaco]) jardineiro = 1 ∧
      (main charSigned ([115, 10] ++ jardineiro ++ [10])).map
          (fun r => veredictos r.escrito)
        = some [.inocente 1 jardineiro] := by
  cases charSigned <;> decide

set_option maxRecDepth 100000 in
/-- C12: after `main` has built the mansion and the suspect index, the seven
rooms are, with their clues and the suspect `encontrarSuspeito` returns for
the clue: entrance (wool coat) Jardineiro, living room (cigarette butts)
Cozinheira, library (forgery book) Mordomo, room of the butler (love note)
Mordomo, kitchen (chef knife) Cozinheira, pantry (muddy gloves) Jardineiro,
garden (torn note) Mordomo; no clue of a room is left without a suspect. -/
theorem C12_every_room_clue_has_its_suspect (charSigned : Bool) :
    mansao.salas.map (fun c => (c.nomeDe, c.pistaDe,
        encontrarSuspeito charSigned (tabelaDeMain charSigned) c.pistaDe))
      = [(nomeEntradaPrincipal, pistaCasaco, some jardineiro),
          (nomeSalaDeEstar, pistaCinzeiro, some cozinheira),
          (nomeBiblioteca, pistaLivro, some mordomo),
          (nomeQuartoDoMordomo, pistaNotaDeAmor, some mordomo),
          (nomeCozinha, pistaFaca, some cozinheira),
          (nomeDespensa, pistaLuvas, some jardineiro),
          (nomeJardim, pistaBilhete, some mordomo)] ∧
      mansao.salas.all (fun c =>
        (encontrarSuspeito charSigned (tabelaDeMain charSigned) c.pistaDe).isSome)
        = true := by
  cases charSigned <;> decide

theorem passo_entrar (raiz : Comodo) (nome pista : List Nat) (esquerda direita : Comodo)
    (escolha : Nat) (destino : Comodo)
    (h : passo raiz nome pista esquerda direita escolha = .entrar destino) :
    (escolha = 101 ∧ destino = esquerda ∧ esquerda ≠ .NULL) ∨
      (escolha = 100 ∧ destino = direita ∧ direita ≠ .NULL) ∨
      (escolha = 114 ∧ destino = raiz ∧ Comodo.sala nome pista esquerda direita ≠ raiz) := by
  unfold passo at h
  split_ifs at h with h1 h2 h3 h4 h5 h6 h7
  · exact Or.inl ⟨h1, (Passo.entrar.inj h).symm, h2⟩
  · exact Or.inr (Or.inl ⟨h3, (Passo.entrar.inj h).symm, h4⟩)
  · exact Or.inr (Or.inr ⟨h5, (Passo.entrar.inj h).symm, h6⟩)

theorem passo_ficar (raiz : Comodo) (nome pista : List Nat) (esquerda direita : Comodo)
    (escolha : Nat) (mensagem : Mensagem)
    (h : passo raiz nome pista esquerda direita escolha = .ficar mensagem) :
    mensagem ∈ [Mensagem.bloqueadoEsquerda, .bloqueadoDireita, .jaNaRaiz,
      .opcaoInvalida] := by
  unfold passo at h
  split_ifs at h <;> (cases h; simp)

theorem passo_sair (raiz : Comodo) (nome pista : List Nat) (esquerda direita : Comodo)
    (escolha : Nat) (h : passo raiz nome pista esquerda direita escolha = .sair) :
    escolha = 115 := by
  unfold passo at h
  split_ifs at h with h1 h2 h3 h4 h5 h6 h7
  exact h7

/-- Invariants of the exploration.  A property `J` of the journal and the
output that every visit of a room satisfying `W` keeps, and that the other
messages of the exploration keep, holds for the result of `explorarSalas`
when it holds at the call, `W` being a property of the root and of the
current room that passes to the children. -/
theorem explorarSalasAux_invariante (charSigned : Bool) (tabelaHash : TabelaHash)
    (raiz : Comodo) (W : Comodo → Prop) (J : PistaColetada → List Mensagem → Prop)
    (hW : ∀ n p e d, W (.sala n p e d) → W e ∧ W d)
    (hraiz : W raiz)
    (hvisita : ∀ n p e d bst saida, W (.sala n p e d) → J bst saida →
      J (visitarSala charSigned tabelaHash n p bst saida).1
        (visitarSala charSigned tabelaHash n p bst saida).2)
    (hmsg : ∀ bst saida m,
      m ∈ [Mensagem.naoPodeIr, .paraOnde, .bloqueadoEsquerda, .bloqueadoDireita,
        .jaNaRaiz, .opcaoInvalida, .saindo] →
      J bst saida → J bst (saida ++ [m]))
    (k : Nat) :
    (∀ atual bst entrada saida r, W atual → J bst saida →
      explorarSalasAux charSigned tabelaHash raiz k atual bst entrada saida = some r →
      J r.diario r.escrito) ∧
    (∀ n p e d bst entrada saida r, W (.sala n p e d) → J bst saida →
      explorarSalasLaco charSigned tabelaHash raiz k n p e d bst entrada saida = some r →
      J r.diario r.escrito) := by
  induction k with
  | zero =>
    refine ⟨?_, ?_⟩
    · intro atual bst entrada saida r _ _ h
      simp [explorarSalasAux] at h
    · intro n p e d bst entrada saida r _ _ h
      simp [explorarSalasLaco] at h
  | succ k ih =>
    obtain ⟨ihE, ihL⟩ := ih
    refine ⟨?_, ?_⟩
    · intro atual bst entrada saida r hw hj h
      cases atual with
      | NULL =>
        simp only [explorarSalasAux, Option.some.injEq] at h
        rw [← h]
        exact hmsg bst saida _ (by simp) hj
      | sala n p e d =>
        simp only [explorarSalasAux] at h
        exact ihL n p e d _ entrada _ r hw (hvisita n p e d bst saida hw hj) h
    · intro n p e d bst entrada saida r hw hj h
      have hj1 : J bst (saida ++ [.paraOnde]) := hmsg bst saida _ (by simp) hj
      simp only [explorarSalasLaco] at h
      cases h1 : scanfChar entrada with
      | none =>
        simp only [h1, Option.some.injEq] at h
        rw [← h]
        exact hj1
      | some par =>
        obtain ⟨escolha, r1⟩ := par
        cases h2 : descartarLinha r1 with
        | none =>
          simp only [h1, h2, Option.some.injEq] at h
          rw [← h]
          exact hj1
        | some r2 =>
          cases h3 : passo raiz n p e d (tolower escolha) with
          | entrar destino =>
            simp only [h1, h2, h3] at h
            have hwd : W destino := by
              rcases passo_entrar raiz n p e d _ destino h3 with
                ⟨_, hd, _⟩ | ⟨_, hd, _⟩ | ⟨_, hd, _⟩
              · rw [hd]; exact (hW n p e d hw).1
              · rw [hd]; exact (hW n p e d hw).2
              · rw [hd]; exact hraiz
            exact ihE destino bst r2 _ r hwd hj1 h
          | ficar mensagem =>
            simp only [h1, h2, h3] at h
            have hm := passo_ficar raiz n p e d _ mensagem h3
            have hj2 : J bst (saida ++ [.paraOnde] ++ [mensagem]) :=
              hmsg bst _ mensagem (by
                simp only [List.mem_cons, List.mem_singleton, List.not_mem_nil,
                  or_false] at hm ⊢
                tauto) hj1
            exact ihL n p e d bst r2 _ r hw hj2 h
          | sair =>
            simp only [h1, h2, h3, Option.some.injEq] at h
            rw [← h]
            exact hmsg bst _ _ (by simp) hj1

theorem visitarSala_fst (charSigned : Bool) (tabelaHash : TabelaHash)
    (nome pista : List Nat) (bst : PistaColetada) (saida : List Mensagem) :
    (visitarSala charSigned tabelaHash nome pista bst saida).1
      = if 0 < pista.length then adicionarPista bst pista else bst := by
  unfold visitarSala
  split_ifs
  · cases encontrarSuspeito charSigned tabelaHash pista <;> rfl
  · rfl

theorem visitarSala_snd (charSigned : Bool) (tabelaHash : TabelaHash)
    (nome pista : List Nat) (bst : PistaColetada) (saida : List Mensagem) :
    (visitarSala charSigned tabelaHash nome pista bst saida).2
      = saida ++ (visitarSala charSigned tabelaHash nome pista bst []).2 := by
  unfold visitarSala
  split_ifs
  · cases encontrarSuspeito charSigned tabelaHash pista <;> simp
  · simp

theorem visitarSala_daExploracao (charSigned : Bool) (tabelaHash : TabelaHash)
    (nome pista : List Nat) (bst : PistaColetada) :
    ∀ m ∈ (visitarSala charSigned tabelaHash nome pista bst []).2,
      daExploracao m = true := by
  unfold visitarSala
  split_ifs
  · cases encontrarSuspeito charSigned tabelaHash pista <;>
      simp [daExploracao]
  · simp [daExploracao]

theorem explorarSalas_daExploracao (charSigned : Bool) (tabelaHash : TabelaHash)
    (atual : Comodo) (bst : PistaColetada) (raiz : Comodo) (entrada : List Nat)
    (r : Resultado)
    (h : explorarSalas charSigned tabelaHash atual bst raiz entrada = some r) :
    ∀ m ∈ r.escrito, daExploracao m = true := by
  refine (explorarSalasAux_invariante charSigned tabelaHash raiz (fun _ => True)
    (fun _ saida => ∀ m ∈ saida, daExploracao m = true)
    (fun _ _ _ _ _ => ⟨trivial, trivial⟩) trivial ?_ ?_ (entrada.length + 2)).1
    atual bst entrada [] r trivial (by simp) h
  · intro n p e d b saida _ hj m hm
    rw [visitarSala_snd] at hm
    rcases List.mem_append.mp hm with h1 | h1
    · exact hj m h1
    · exact visitarSala_daExploracao charSigned tabelaHash n p b m h1
  · intro b saida m hm hj x hx
    rcases List.mem_append.mp hx with h1 | h1
    · exact hj x h1
    · have hxm : x = m := by simpa using h1
      rw [hxm]
      simp only [List.mem_cons, List.mem_singleton, List.not_mem_nil, or_false] at hm
      rcases hm with h | h | h | h | h | h | h <;> rw [h] <;> rfl

theorem veredictos_eq_nil_of_daExploracao (saida : List Mensagem)
    (h : ∀ m ∈ saida, daExploracao m = true) : veredictos saida = [] := by
  induction saida with
  | nil => rfl
  | cons m resto ih =>
    have hm := h m (List.mem_cons_self m resto)
    have hr := ih (fun x hx => h x (List.mem_cons_of_mem m hx))
    cases m <;> simp_all [veredictos, daExploracao]

/-- C16: when the journal is empty at judgment time, the case is reported as
closed, no accusation is read and no verdict is rendered.
`verificarSuspeitoFinal` on the empty journal writes the header and the
closing message and returns with the input untouched; and when the
exploration of `main` returns with the empty journal, `main` writes its own
closing message, without the accusation prompt and without a verdict, and
leaves the rest of the input unread. -/
theorem C16_empty_journal_closes_case (charSigned : Bool) (tabelaHash : TabelaHash)
    (raiz : Comodo) (entrada resto : List Nat) (saida : List Mensagem)
    (h : explorarSalas charSigned tabelaHash raiz .NULL raiz entrada
      = some (.retornou .NULL resto saida)) :
    (∀ e : List Nat, verificarSuspeitoFinal charSigned tabelaHash .NULL e
        = .retornou .NULL e [.julgamento, .arquivado]) ∧
      jogar charSigned tabelaHash raiz entrada
        = some (.retornou .NULL resto
            (.titulo :: saida ++ [.semExploracao, .fimDoJogo])) ∧
      Mensagem.quemAcusa ∉ (Mensagem.titulo :: saida ++ [.semExploracao, .fimDoJogo]) ∧
      veredictos (Mensagem.titulo :: saida ++ [.semExploracao, .fimDoJogo]) = [] ∧
      (∀ e : List Nat, main charSigned e
        = jogar charSigned (tabelaDeMain charSigned) mansao e) := by
  have hexp := explorarSalas_daExploracao charSigned tabelaHash raiz .NULL raiz entrada
    _ h
  simp only [Resultado.escrito] at hexp
  have hall : ∀ m ∈ (Mensagem.titulo :: saida ++ [.semExploracao, .fimDoJogo]),
      m = .titulo ∨ m = .semExploracao ∨ m = .fimDoJogo ∨ daExploracao m = true := by
    intro m hm
    simp only [List.cons_append, List.mem_cons, List.mem_append, List.mem_singleton,
      List.not_mem_nil, or_false] at hm
    rcases hm with hm | hm | hm | hm
    · exact Or.inl hm
    · exact Or.inr (Or.inr (Or.inr (hexp m hm)))
    · exact Or.inr (Or.inl hm)
    · exact Or.inr (Or.inr (Or.inl hm))
  refine ⟨fun e => rfl, ?_, ?_, ?_, fun e => rfl⟩
  · simp [jogar, h]
  · intro hq
    rcases hall _ hq with h1 | h1 | h1 | h1
    · cases h1
    · cases h1
    · cases h1
    · simp [daExploracao] at h1
  · have hv : veredictos saida = [] := veredictos_eq_nil_of_daExploracao saida hexp
    have happ : ∀ a b : List Mensagem, veredictos (a ++ b) = veredictos a ++ veredictos b := by
      intro a b
      induction a with
      | nil => rfl
      | cons m a ih => cases m <;> simp [veredictos, ih]
    show veredictos ([Mensagem.titulo] ++ saida ++ [.semExploracao, .fimDoJogo]) = []
    rw [happ, happ, hv]
    rfl

set_option maxRecDepth 100000 in
theorem C16_empty_journal_closes_case_witness :
    explorarSalas true (tabelaDeMain true) (criarSala nomeJardim []) .NULL
        (criarSala nomeJardim []) ([115, 10] ++ jardineiro ++ [10])
      = some (.retornou .NULL (jardineiro ++ [10])
          [.voceEsta nomeJardim, .semPista, .paraOnde, .saindo]) ∧
      jogar true (tabelaDeMain true) (criarSala nomeJardim [])
          ([115, 10] ++ jardineiro ++ [10])
        = some (.retornou .NULL (jardineiro ++ [10])
            (.titulo :: [.voceEsta nomeJardim, .semPista, .paraOnde, .saindo]
              ++ [.semExploracao, .fimDoJogo])) :=
  ⟨by decide,
    (C16_empty_journal_closes_case true (tabelaDeMain true) (criarSala nomeJardim [])
      ([115, 10] ++ jardineiro ++ [10]) (jardineiro ++ [10])
      [.voceEsta nomeJardim, .semPista, .paraOnde, .saindo] (by decide)).2.1⟩

theorem explorarSalasAux_escrito (charSigned : Bool) (tabelaHash : TabelaHash)
    (raiz : Comodo) (inicio : List Mensagem) (k : Nat) :
    (∀ atual bst entrada saida r, inicio <+: saida →
      explorarSalasAux charSigned tabelaHash raiz k atual bst entrada saida = some r →
      inicio <+: r.escrito) ∧
    (∀ n p e d bst entrada saida r, inicio <+: saida →
      explorarSalasLaco charSigned tabelaHash raiz k n p e d bst entrada saida = some r →
      inicio <+: r.escrito) := by
  have h := explorarSalasAux_invariante charSigned tabelaHash raiz (fun _ => True)
    (fun _ saida => inicio <+: saida) (fun _ _ _ _ _ => ⟨trivial, trivial⟩) trivial
    (by
      intro n p e d b saida _ hj
      rw [visitarSala_snd]
      exact hj.trans (List.prefix_append _ _))
    (by
      intro b saida m _ hj
      exact hj.trans (List.prefix_append _ _)) k
  exact ⟨fun atual bst entrada saida r hp he => h.1 atual bst entrada saida r trivial hp he,
    fun n p e d bst entrada saida r hp he => h.2 n p e d bst entrada saida r trivial hp he⟩

/-- The loop of `explorarSalas` writes the prompt first. -/
theorem explorarSalasLaco_escrito (charSigned : Bool) (tabelaHash : TabelaHash)
    (raiz : Comodo) (k : Nat) (n p : List Nat) (e d : Comodo) (bst : PistaColetada)
    (entrada : List Nat) (saida : List Mensagem) (r : Resultado)
    (h : explorarSalasLaco charSigned tabelaHash raiz k n p e d bst entrada saida
      = some r) :
    (saida ++ [.paraOnde]) <+: r.escrito := by
  cases k with
  | zero => simp [explorarSalasLaco] at h
  | succ k =>
    have hpre := explorarSalasAux_escrito charSigned tabelaHash raiz (saida ++ [.paraOnde]) k
    simp only [explorarSalasLaco] at h
    cases h1 : scanfChar entrada with
    | none =>
      simp only [h1, Option.some.injEq] at h
      rw [← h]
      exact List.prefix_refl _
    | some par =>
      obtain ⟨escolha, r1⟩ := par
      cases h2 : descartarLinha r1 with
      | none =>
        simp only [h1, h2, Option.some.injEq] at h
        rw [← h]
        exact List.prefix_refl _
      | some r2 =>
        cases h3 : passo raiz n p e d (tolower escolha) with
        | entrar destino =>
          simp only [h1, h2, h3] at h
          exact hpre.1 destino bst r2 _ r (List.prefix_refl _) h
        | ficar mensagem =>
          simp only [h1, h2, h3] at h
          exact hpre.2 n p e d bst r2 _ r (List.prefix_append _ _) h
        | sair =>
          simp only [h1, h2, h3, Option.some.injEq] at h
          rw [← h]
          exact List.prefix_append _ _

/-- C17: for every room, journal and remaining input, the exit command (`s`,
in either case) read at the navigation prompt ends `explorarSalas` at once.
The loop returns with the journal it held, after the prompt and the exit
message and without entering a room; what follows the line of the command is
returned unread and has no effect on the journal and the output; and a call
of `explorarSalas` whose first command is the exit returns after the visit of
its room. -/
theorem C17_exit_ends_exploration (charSigned : Bool) (tabelaHash : TabelaHash)
    (raiz : Comodo) (k : Nat) (n p : List Nat) (e d : Comodo) (bst : PistaColetada)
    (entrada r1 r2 : List Nat) (c : Nat) (saida : List Mensagem)
    (h1 : scanfChar entrada = some (c, r1)) (h2 : descartarLinha r1 = some r2)
    (hs : tolower c = 115) :
    explorarSalasLaco charSigned tabelaHash raiz (k + 1) n p e d bst entrada saida
        = some (.retornou bst r2 (saida ++ [.paraOnde, .saindo])) ∧
      salasVisitadas (saida ++ [.paraOnde, .saindo]) = salasVisitadas saida ∧
      (∀ (outra s1 s2 : List Nat) (c2 : Nat), scanfChar outra = some (c2, s1) →
        descartarLinha s1 = some s2 → tolower c2 = 115 →
        (explorarSalasLaco charSigned tabelaHash raiz (k + 1) n p e d bst outra
            saida).map (fun r => (r.diario, r.escrito))
          = (explorarSalasLaco charSigned tabelaHash raiz (k + 1) n p e d bst entrada
            saida).map (fun r => (r.diario, r.escrito))) ∧
      explorarSalas charSigned tabelaHash (.sala n p e d) bst raiz entrada
        = some (.retornou (visitarSala charSigned tabelaHash n p bst []).1 r2
            ((visitarSala charSigned tabelaHash n p bst []).2 ++ [.paraOnde, .saindo])) := by
  have hgen : ∀ (b : PistaColetada) (k2 : Nat) (ent s1 s2 : List Nat) (c2 : Nat)
      (out : List Mensagem),
      scanfChar ent = some (c2, s1) → descartarLinha s1 = some s2 → tolower c2 = 115 →
      explorarSalasLaco charSigned tabelaHash raiz (k2 + 1) n p e d b ent out
        = some (.retornou b s2 (out ++ [.paraOnde, .saindo])) := by
    intro b k2 ent s1 s2 c2 out g1 g2 g3
    have hp : passo raiz n p e d 115 = .sair := by
      simp [passo]
    simp [explorarSalasLaco, g1, g2, g3, hp]
  refine ⟨hgen bst k entrada r1 r2 c saida h1 h2 hs, ?_, ?_, ?_⟩
  · have happ : ∀ a : List Mensagem,
        salasVisitadas (a ++ [.paraOnde, .saindo]) = salasVisitadas a := by
      intro a
      induction a with
      | nil => rfl
      | cons m a ih => cases m <;> simp [salasVisitadas, ih]
    exact happ saida
  · intro outra s1 s2 c2 g1 g2 g3
    rw [hgen bst k outra s1 s2 c2 saida g1 g2 g3, hgen bst k entrada r1 r2 c saida h1 h2 hs]
    rfl
  · simp only [explorarSalas, explorarSalasAux]
    exact hgen _ _ entrada r1 r2 c _ h1 h2 hs

set_option maxRecDepth 100000 in
theorem C17_exit_ends_exploration_witness :
    scanfChar ([32, 83, 105, 109, 10, 101, 10] ++ jardineiro)
        = some (83, [105, 109, 10, 101, 10] ++ jardineiro) ∧
      descartarLinha ([105, 109, 10, 101, 10] ++ jardineiro)
        = some ([101, 10] ++ jardineiro) ∧
      tolower 83 = 115 ∧
      explorarSalasLaco true (tabelaDeMain true) mansao (0 + 1) nomeBiblioteca pistaLivro
          .NULL .NULL (inserirTodas [pistaCasaco, pistaCinzeiro, pistaLivro])
          ([32, 83, 105, 109, 10, 101, 10] ++ jardineiro) []
        = some (.retornou (inserirTodas [pistaCasaco, pistaCinzeiro, pistaLivro])
            ([101, 10] ++ jardineiro) ([] ++ [.paraOnde, .saindo])) :=
  ⟨by decide, by decide, by decide,
    (C17_exit_ends_exploration true (tabelaDeMain true) mansao 0 nomeBiblioteca
      pistaLivro .NULL .NULL (inserirTodas [pistaCasaco, pistaCinzeiro, pistaLivro])
      ([32, 83, 105, 109, 10, 101, 10] ++ jardineiro)
      ([105, 109, 10, 101, 10] ++ jardineiro) ([101, 10] ++ jardineiro) 83 []
      (by decide) (by decide) (by decide)).1⟩

/-- C13: in one pass of the loop of `explorarSalas`, at any room with any
journal, each of these commands leaves the current room and the journal
unchanged and causes a new prompt: a character that is none of `e`, `d`, `r`,
`s` in either case, go-left when the room has no left child, go-right when it
has no right child, and return-to-root when the current room is the root.
The pass writes the prompt and one of the four messages and the loop goes on
in the same room with the same journal on the rest of the input, where it
writes the prompt again. -/
theorem C13_blocked_commands_change_nothing (charSigned : Bool)
    (tabelaHash : TabelaHash) (raiz : Comodo) (k : Nat) (n p : List Nat) (e d : Comodo)
    (bst : PistaColetada) (entrada r1 r2 : List Nat) (c : Nat) (saida : List Mensagem)
    (h1 : scanfChar entrada = some (c, r1)) (h2 : descartarLinha r1 = some r2)
    (hcmd : (tolower c ≠ 101 ∧ tolower c ≠ 100 ∧ tolower c ≠ 114 ∧ tolower c ≠ 115) ∨
      (tolower c = 101 ∧ e = .NULL) ∨ (tolower c = 100 ∧ d = .NULL) ∨
      (tolower c = 114 ∧ Comodo.sala n p e d = raiz)) :
    ∃ m, m ∈ [Mensagem.opcaoInvalida, .bloqueadoEsquerda, .bloqueadoDireita, .jaNaRaiz] ∧
      passo raiz n p e d (tolower c) = .ficar m ∧
      proximoEstado charSigned tabelaHash raiz (.sala n p e d) bst (tolower c)
        = some (.sala n p e d, bst) ∧
      explorarSalasLaco charSigned tabelaHash raiz (k + 1) n p e d bst entrada saida
        = explorarSalasLaco charSigned tabelaHash raiz k n p e d bst r2
            (saida ++ [.paraOnde, m]) ∧
      ∀ r, explorarSalasLaco charSigned tabelaHash raiz k n p e d bst r2
          (saida ++ [.paraOnde, m]) = some r →
        (saida ++ [.paraOnde, m, .paraOnde]) <+: r.escrito := by
  have hm : ∃ m, m ∈ [Mensagem.opcaoInvalida, .bloqueadoEsquerda, .bloqueadoDireita,
      .jaNaRaiz] ∧ passo raiz n p e d (tolower c) = .ficar m := by
    rcases hcmd with ⟨a1, a2, a3, a4⟩ | ⟨a1, a2⟩ | ⟨a1, a2⟩ | ⟨a1, a2⟩
    · exact ⟨.opcaoInvalida, by simp, by simp [passo, a1, a2, a3, a4]⟩
    · exact ⟨.bloqueadoEsquerda, by simp, by simp [passo, a1, a2]⟩
    · exact ⟨.bloqueadoDireita, by simp, by simp [passo, a1, a2]⟩
    · exact ⟨.jaNaRaiz, by simp, by simp [passo, a1, a2]⟩
  obtain ⟨m, hmem, hp⟩ := hm
  refine ⟨m, hmem, hp, ?_, ?_, ?_⟩
  · simp [proximoEstado, hp]
  · simp [explorarSalasLaco, h1, h2, hp]
  · intro r hr
    have := explorarSalasLaco_escrito charSigned tabelaHash raiz k n p e d bst r2 _ r hr
    simpa using this

set_option maxRecDepth 100000 in
theorem C13_blocked_commands_change_nothing_witness :
    estadoInicial true (tabelaDeMain true) mansao .NULL
        = some (mansao, inserirTodas [pistaCasaco]) ∧
      estadoApos true (tabelaDeMain true) mansao (mansao, inserirTodas [pistaCasaco])
          [101, 101]
        = some (criarSala nomeBiblioteca pistaLivro,
            inserirTodas [pistaCasaco, pistaCinzeiro, pistaLivro]) ∧
      criarSala nomeBiblioteca pistaLivro
        = .sala nomeBiblioteca pistaLivro .NULL .NULL ∧
      (explorarSalas true (tabelaDeMain true) mansao .NULL mansao
          [101, 10, 101, 10, 101, 10, 115, 10]).map
          (fun r => (salasVisitadas r.escrito, listarPistas r.diario))
        = some ([nomeEntradaPrincipal, nomeSalaDeEstar, nomeBiblioteca],
            [pistaCinzeiro, pistaLivro, pistaCasaco]) ∧
      ∃ m, m ∈ [Mensagem.opcaoInvalida, .bloqueadoEsquerda, .bloqueadoDireita, .jaNaRaiz] ∧
        passo mansao nomeBiblioteca pistaLivro .NULL .NULL (tolower 101) = .ficar m ∧
        proximoEstado true (tabelaDeMain true) mansao
            (.sala nomeBiblioteca pistaLivro .NULL .NULL)
            (inserirTodas [pistaCasaco, pistaCinzeiro, pistaLivro]) (tolower 101)
          = some (.sala nomeBiblioteca pistaLivro .NULL .NULL,
              inserirTodas [pistaCasaco, pistaCinzeiro, pistaLivro]) ∧
        explorarSalasLaco true (tabelaDeMain true) mansao (3 + 1) nomeBiblioteca
            pistaLivro .NULL .NULL (inserirTodas [pistaCasaco, pistaCinzeiro, pistaLivro])
            [101, 10, 115, 10] []
          = explorarSalasLaco true (tabelaDeMain true) mansao 3 nomeBiblioteca
              pistaLivro .NULL .NULL
              (inserirTodas [pistaCasaco, pistaCinzeiro, pistaLivro]) [115, 10]
              ([] ++ [.paraOnde, m]) ∧
        ∀ r, explorarSalasLaco true (tabelaDeMain true) mansao 3 nomeBiblioteca
            pistaLivro .NULL .NULL
            (inserirTodas [pistaCasaco, pistaCinzeiro, pistaLivro]) [115, 10]
            ([] ++ [.paraOnde, m]) = some r →
          ([] ++ [.paraOnde, m, .paraOnde]) <+: r.escrito :=
  ⟨by decide, by decide, by decide, by decide,
    C13_blocked_commands_change_nothing true (tabelaDeMain true) mansao 3
      nomeBiblioteca pistaLivro .NULL .NULL
      (inserirTodas [pistaCasaco, pistaCinzeiro, pistaLivro]) [101, 10, 115, 10]
      [10, 115, 10] [115, 10] 101 [] (by decide) (by decide)
      (Or.inr (Or.inl ⟨by decide, rfl⟩))⟩

/-! ## Reference functions -/

theorem strcmp_le_total (a b : List Nat) : strcmp a b ≤ 0 ∨ strcmp b a ≤ 0 := by
  by_cases h : strcmp a b ≤ 0
  · exact Or.inl h
  · have : strcmp b a < 0 := (strcmp_gt_iff a b).mp (by omega)
    exact Or.inr (by omega)

theorem strcmp_le_antisymm (a b : List Nat) (h1 : strcmp a b ≤ 0) (h2 : strcmp b a ≤ 0) :
    a = b := by
  apply (strcmp_eq_zero_iff a b).mp
  by_contra h
  have hlt : strcmp a b < 0 := by omega
  have : 0 < strcmp b a := (strcmp_gt_iff b a).mpr hlt
  omega

theorem strcmp_le_trans (a b c : List Nat) (h1 : strcmp a b ≤ 0) (h2 : strcmp b c ≤ 0) :
    strcmp a c ≤ 0 := by
  by_cases e1 : strcmp a b = 0
  · rw [(strcmp_eq_zero_iff a b).mp e1]
    exact h2
  · by_cases e2 : strcmp b c = 0
    · rw [← (strcmp_eq_zero_iff b c).mp e2]
      exact h1
    · have := strcmp_lt_trans a b c (by omega) (by omega)
      omega

/-- Two strictly ascending lists with the same elements are equal. -/
theorem eq_of_pairwise_strcmp (l1 l2 : List (List Nat))
    (h1 : l1.Pairwise (fun a b => strcmp a b < 0))
    (h2 : l2.Pairwise (fun a b => strcmp a b < 0))
    (hmem : ∀ t, t ∈ l1 ↔ t ∈ l2) : l1 = l2 := by
  have nodup : ∀ l : List (List Nat), l.Pairwise (fun a b => strcmp a b < 0) → l.Nodup := by
    intro l hl
    refine hl.imp ?_
    intro a b hab heq
    rw [heq, strcmp_self] at hab
    exact absurd hab (by decide)
  have hperm : l1.Perm l2 := (List.perm_ext_iff_of_nodup (nodup l1 h1) (nodup l2 h2)).mpr hmem
  haveI : IsAntisymm (List Nat) (fun a b => strcmp a b ≤ 0) :=
    ⟨fun a b => strcmp_le_antisymm a b⟩
  exact List.eq_of_perm_of_sorted hperm
    (h1.imp (fun {a b} (h : strcmp a b < 0) => (by omega : strcmp a b ≤ 0)))
    (h2.imp (fun {a b} (h : strcmp a b < 0) => (by omega : strcmp a b ≤ 0)))

theorem pairwise_ordenadasDistintas (textos : List (List Nat)) :
    (ordenadasDistintas textos).Pairwise (fun a b => strcmp a b < 0) := by
  haveI : IsTotal (List Nat) (fun a b => strcmp a b ≤ 0) :=
    ⟨fun a b => strcmp_le_total a b⟩
  haveI : IsTrans (List Nat) (fun a b => strcmp a b ≤ 0) :=
    ⟨fun a b c => strcmp_le_trans a b c⟩
  have hs : (ordenadasDistintas textos).Pairwise (fun a b => strcmp a b ≤ 0) :=
    List.sorted_insertionSort (fun a b => strcmp a b ≤ 0) textos.dedup
  have hn : (ordenadasDistintas textos).Nodup :=
    (List.perm_insertionSort (fun a b => strcmp a b ≤ 0) textos.dedup).nodup_iff.mpr
      (List.nodup_dedup textos)
  have hboth := hs.and hn
  refine hboth.imp ?_
  intro a b hab
  obtain ⟨hle, hne⟩ := hab
  have : strcmp a b ≠ 0 := fun h0 => hne ((strcmp_eq_zero_iff a b).mp h0)
  omega

theorem mem_ordenadasDistintas (textos : List (List Nat)) (t : List Nat) :
    t ∈ ordenadasDistintas textos ↔ t ∈ textos := by
  unfold ordenadasDistintas
  rw [(List.perm_insertionSort (fun a b => strcmp a b ≤ 0) textos.dedup).mem_iff]
  exact List.mem_dedup

theorem mem_adicionarPista_of_mem (j : PistaColetada) (t x : List Nat)
    (hx : x ∈ listarPistas j) : x ∈ listarPistas (adicionarPista j t) := by
  induction j with
  | NULL => simp [listarPistas] at hx
  | no d e r ihe ihr =>
    simp only [listarPistas, List.mem_append, List.mem_cons] at hx
    simp only [adicionarPista]
    split_ifs
    · simp only [listarPistas, List.mem_append, List.mem_cons]
      rcases hx with h | h | h
      · exact Or.inl (ihe h)
      · exact Or.inr (Or.inl h)
      · exact Or.inr (Or.inr h)
    · simp only [listarPistas, List.mem_append, List.mem_cons]
      rcases hx with h | h | h
      · exact Or.inl h
      · exact Or.inr (Or.inl h)
      · exact Or.inr (Or.inr (ihr h))
    · simp only [listarPistas, List.mem_append, List.mem_cons]
      exact hx

theorem mem_adicionarPista_self (j : PistaColetada) (t : List Nat)
    (ht : t.length ≤ MAX_PISTA - 1) : t ∈ listarPistas (adicionarPista j t) := by
  induction j with
  | NULL => simp [adicionarPista, listarPistas, strncpy_of_length_le t _ ht]
  | no d e r ihe ihr =>
    simp only [adicionarPista]
    split_ifs with h1 h2
    · simp only [listarPistas, List.mem_append, List.mem_cons]
      exact Or.inl ihe
    · simp only [listarPistas, List.mem_append, List.mem_cons]
      exact Or.inr (Or.inr ihr)
    · have h0 : strcmp t d = 0 := by omega
      simp only [listarPistas, List.mem_append, List.mem_cons]
      exact Or.inr (Or.inl ((strcmp_eq_zero_iff t d).mp h0))

theorem mem_adicionarPista_iff (j : PistaColetada) (t x : List Nat)
    (ht : t.length ≤ MAX_PISTA - 1) :
    x ∈ listarPistas (adicionarPista j t) ↔ x ∈ listarPistas j ∨ x = t := by
  constructor
  · intro h
    have := mem_listarPistas_adicionarPista j t x h
    rwa [strncpy_of_length_le t _ ht] at this
  · rintro (h | h)
    · exact mem_adicionarPista_of_mem j t x h
    · rw [h]
      exact mem_adicionarPista_self j t ht

theorem mem_inserirTodas_iff (textos : List (List Nat)) (x : List Nat)
    (h : ∀ t ∈ textos, t.length ≤ MAX_PISTA - 1) :
    x ∈ listarPistas (inserirTodas textos) ↔ x ∈ textos := by
  have gen : ∀ (ts : List (List Nat)) (j : PistaColetada),
      (∀ t ∈ ts, t.length ≤ MAX_PISTA - 1) →
      (x ∈ listarPistas (ts.foldl adicionarPista j) ↔ x ∈ listarPistas j ∨ x ∈ ts) := by
    intro ts
    induction ts with
    | nil => intro j _; simp
    | cons t ts ih =>
      intro j hts
      simp only [List.foldl_cons]
      rw [ih (adicionarPista j t) (fun u hu => hts u (List.mem_cons_of_mem t hu)),
        mem_adicionarPista_iff j t x (hts t (List.mem_cons_self t ts))]
      simp only [List.mem_cons]
      tauto
  have := gen textos .NULL h
  simpa [inserirTodas, listarPistas] using this

/-- C18: for every finite sequence of clue texts of less than 100 bytes each
(`MAX_PISTA - 1` = 99 at most), the listing of the journal obtained by
inserting them with `adicionarPista` into the empty journal is the sorted
list of the distinct texts of the sequence: a text is listed exactly when it
was inserted, and the listing is the same for every order of insertion. -/
theorem C18_listing_is_sorted_distinct (textos : List (List Nat))
    (h : ∀ t ∈ textos, t.length ≤ MAX_PISTA - 1) :
    listarPistas (inserirTodas textos) = ordenadasDistintas textos ∧
      (∀ t, t ∈ listarPistas (inserirTodas textos) ↔ t ∈ textos) ∧
      ∀ outra : List (List Nat), outra.Perm textos →
        listarPistas (inserirTodas outra) = listarPistas (inserirTodas textos) := by
  have hpw : ∀ ts : List (List Nat), (∀ t ∈ ts, t.length ≤ MAX_PISTA - 1) →
      (listarPistas (inserirTodas ts)).Pairwise (fun a b => strcmp a b < 0) :=
    fun ts hts => pairwise_listarPistas _ (ordenada_inserirTodas ts hts)
  refine ⟨?_, fun t => mem_inserirTodas_iff textos t h, ?_⟩
  · apply eq_of_pairwise_strcmp _ _ (hpw textos h) (pairwise_ordenadasDistintas textos)
    intro t
    rw [mem_inserirTodas_iff textos t h, mem_ordenadasDistintas]
  · intro outra hperm
    have ho : ∀ t ∈ outra, t.length ≤ MAX_PISTA - 1 :=
      fun t ht => h t (hperm.mem_iff.mp ht)
    apply eq_of_pairwise_strcmp _ _ (hpw outra ho) (hpw textos h)
    intro t
    rw [mem_inserirTodas_iff outra t ho, mem_inserirTodas_iff textos t h]
    exact hperm.mem_iff

set_option maxRecDepth 100000 in
theorem C18_listing_is_sorted_distinct_witness :
    (∀ t ∈ [pistaLuvas, pistaCasaco, pistaFaca, pistaCasaco, pistaLuvas],
        t.length ≤ MAX_PISTA - 1) ∧
      ordenadasDistintas [pistaLuvas, pistaCasaco, pistaFaca, pistaCasaco, pistaLuvas]
        = [pistaFaca, pistaCasaco, pistaLuvas] ∧
      listarPistas (inserirTodas
          [pistaLuvas, pistaCasaco, pistaFaca, pistaCasaco, pistaLuvas])
        = ordenadasDistintas
            [pistaLuvas, pistaCasaco, pistaFaca, pistaCasaco, pistaLuvas] :=
  ⟨by decide, by decide,
    (C18_listing_is_sorted_distinct
      [pistaLuvas, pistaCasaco, pistaFaca, pistaCasaco, pistaLuvas] (by decide)).1⟩

theorem encontrarSuspeito_inserirNaHash_ne (charSigned : Bool) (tabelaHash : TabelaHash)
    (chave valor outra : List Nat) (hk : chave.length ≤ MAX_PISTA - 1)
    (hne : outra ≠ chave) :
    encontrarSuspeito charSigned (inserirNaHash charSigned tabelaHash chave valor) outra
      = encontrarSuspeito charSigned tabelaHash outra := by
  unfold encontrarSuspeito inserirNaHash
  by_cases hb : funcaoHash charSigned outra = funcaoHash charSigned chave
  · have h0 : strcmp chave outra ≠ 0 := fun h =>
      hne ((strcmp_eq_zero_iff chave outra).mp h).symm
    simp [hb, encontrarNaLista, strncpy_of_length_le _ _ hk, h0]
  · simp [hb]

theorem ultimoValor_append (chamadas : List (List Nat × List Nat))
    (c : List Nat × List Nat) (chave : List Nat) :
    ultimoValor (chamadas ++ [c]) chave
      = if c.1 = chave then some c.2 else ultimoValor chamadas chave := by
  induction chamadas with
  | nil => simp [ultimoValor]
  | cons a l ih =>
    have hcons : (a :: l) ++ [c] = a :: (l ++ [c]) := rfl
    rw [hcons]
    simp only [ultimoValor]
    rw [ih]
    by_cases hc : c.1 = chave
    · simp [hc]
    · simp [hc]

theorem inserirVarias_append (charSigned : Bool) (tabelaHash : TabelaHash)
    (chamadas : List (List Nat × List Nat)) (c : List Nat × List Nat) :
    inserirVarias charSigned tabelaHash (chamadas ++ [c])
      = inserirNaHash charSigned (inserirVarias charSigned tabelaHash chamadas) c.1 c.2 := by
  simp [inserirVarias, List.foldl_append]

theorem encontrarSuspeito_inserirNaHash_self (charSigned : Bool) (tabelaHash : TabelaHash)
    (chave valor : List Nat) (hk : chave.length ≤ MAX_PISTA - 1)
    (hv : valor.length ≤ MAX_NOME - 1) :
    encontrarSuspeito charSigned (inserirNaHash charSigned tabelaHash chave valor) chave
      = some valor := by
  simp [encontrarSuspeito, inserirNaHash, encontrarNaLista,
    strncpy_of_length_le _ _ hk, strncpy_of_length_le _ _ hv, strcmp_self]

/-- C19: for keys of at most 99 bytes and values of at most 49 bytes the hash
table refines a finite map.  After any sequence of `inserirNaHash` calls on a
table initialised by `inicializarHash`, `encontrarSuspeito(k)` returns the
value of the last call whose key equals `k`, and none if there is no such
call; and on every table state, inserting a key `k` does not change the
lookup result of a different key, whatever the buckets of the two keys. -/
theorem C19_table_refines_finite_map (charSigned : Bool)
    (chamadas : List (List Nat × List Nat))
    (hlen : ∀ c ∈ chamadas, c.1.length ≤ MAX_PISTA - 1 ∧ c.2.length ≤ MAX_NOME - 1) :
    (∀ chave : List Nat,
        encontrarSuspeito charSigned (inserirVarias charSigned inicializarHash chamadas)
          chave = ultimoValor chamadas chave) ∧
      ∀ (tabelaHash : TabelaHash) (k v outra : List Nat), k.length ≤ MAX_PISTA - 1 →
        outra ≠ k →
        encontrarSuspeito charSigned (inserirNaHash charSigned tabelaHash k v) outra
          = encontrarSuspeito charSigned tabelaHash outra := by
  refine ⟨?_, fun t k v outra hk hne =>
    encontrarSuspeito_inserirNaHash_ne charSigned t k v outra hk hne⟩
  intro chave
  induction chamadas using List.reverseRecOn with
  | nil => rfl
  | append_singleton l c ih =>
    have hc := hlen c (by simp)
    have hl : ∀ x ∈ l, x.1.length ≤ MAX_PISTA - 1 ∧ x.2.length ≤ MAX_NOME - 1 :=
      fun x hx => hlen x (List.mem_append_left _ hx)
    rw [inserirVarias_append, ultimoValor_append]
    by_cases hk : c.1 = chave
    · rw [if_pos hk, ← hk]
      exact encontrarSuspeito_inserirNaHash_self charSigned _ c.1 c.2 hc.1 hc.2
    · rw [if_neg hk,
        encontrarSuspeito_inserirNaHash_ne charSigned _ c.1 c.2 chave hc.1 (Ne.symm hk)]
      exact ih hl

set_option maxRecDepth 100000 in
theorem C19_table_refines_finite_map_witness :
    (∀ c ∈ [([97, 98], [77]), ([98, 97], [74]), ([97, 98], [67])],
        c.1.length ≤ MAX_PISTA - 1 ∧ c.2.length ≤ MAX_NOME - 1) ∧
      funcaoHash true [97, 98] = funcaoHash true [98, 97] ∧
      ultimoValor [([97, 98], [77]), ([98, 97], [74]), ([97, 98], [67])] [97, 98]
        = some [67] ∧
      ultimoValor [([97, 98], [77]), ([98, 97], [74]), ([97, 98], [67])] [98, 97]
        = some [74] ∧
      ultimoValor [([97, 98], [77]), ([98, 97], [74]), ([97, 98], [67])] [99]
        = none ∧
      ∀ chave : List Nat,
        encontrarSuspeito true
          (inserirVarias true inicializarHash
            [([97, 98], [77]), ([98, 97], [74]), ([97, 98], [67])]) chave
          = ultimoValor [([97, 98], [77]), ([98, 97], [74]), ([97, 98], [67])] chave :=
  ⟨by decide, by decide, by decide, by decide, by decide,
    (C19_table_refines_finite_map true
      [([97, 98], [77]), ([98, 97], [74]), ([97, 98], [67])] (by decide)).1⟩

/-! ## Journal and rooms during the exploration -/

theorem mansao_eq :
    mansao = .sala nomeEntradaPrincipal pistaCasaco
      (ligar (criarSala nomeSalaDeEstar pistaCinzeiro)
        (criarSala nomeBiblioteca pistaLivro)
        (criarSala nomeQuartoDoMordomo pistaNotaDeAmor))
      (ligar (criarSala nomeCozinha pistaFaca)
        (criarSala nomeDespensa pistaLuvas)
        (criarSala nomeJardim pistaBilhete)) := by
  decide

theorem explorarSalasAux_journal_mono (charSigned : Bool) (tabelaHash : TabelaHash)
    (raiz : Comodo) (x : List Nat) (k : Nat) :
    (∀ atual bst entrada saida r, x ∈ listarPistas bst →
      explorarSalasAux charSigned tabelaHash raiz k atual bst entrada saida = some r →
      x ∈ listarPistas r.diario) ∧
    (∀ n p e d bst entrada saida r, x ∈ listarPistas bst →
      explorarSalasLaco charSigned tabelaHash raiz k n p e d bst entrada saida = some r →
      x ∈ listarPistas r.diario) := by
  have h := explorarSalasAux_invariante charSigned tabelaHash raiz (fun _ => True)
    (fun bst _ => x ∈ listarPistas bst) (fun _ _ _ _ _ => ⟨trivial, trivial⟩) trivial
    (by
      intro n p e d b saida _ hj
      rw [visitarSala_fst]
      split_ifs
      · exact mem_adicionarPista_of_mem b p x hj
      · exact hj)
    (by
      intro b saida m _ hj
      exact hj) k
  exact ⟨fun atual bst entrada saida r hp he => h.1 atual bst entrada saida r trivial hp he,
    fun n p e d bst entrada saida r hp he => h.2 n p e d bst entrada saida r trivial hp he⟩

theorem verificarSuspeitoFinal_escrito (charSigned : Bool) (tabelaHash : TabelaHash)
    (bst : PistaColetada) (entrada : List Nat) (hne : bst ≠ .NULL) :
    Mensagem.arquivado ∉ (verificarSuspeitoFinal charSigned tabelaHash bst entrada).escrito ∧
      Mensagem.semExploracao ∉
        (verificarSuspeitoFinal charSigned tabelaHash bst entrada).escrito := by
  cases h1 : scanfAcusado entrada with
  | none =>
    cases h2 : descartarLinha entrada <;>
      simp [verificarSuspeitoFinal, hne, h1, h2, Resultado.escrito]
  | some par =>
    obtain ⟨acusado, resto⟩ := par
    cases h2 : descartarLinha resto with
    | none => simp [verificarSuspeitoFinal, hne, h1, h2, Resultado.escrito]
    | some r2 =>
      by_cases hn : 2 ≤ contarPistasPorSuspeito charSigned tabelaHash bst acusado <;>
        simp [verificarSuspeitoFinal, hne, h1, h2, hn, Resultado.escrito]

theorem not_mem_of_daExploracao (saida : List Mensagem) (m : Mensagem)
    (h : ∀ x ∈ saida, daExploracao x = true) (hm : daExploracao m = false) :
    m ∉ saida := by
  intro hmem
  have := h m hmem
  rw [hm] at this
  exact absurd this (by decide)

/-- C20: for every input, the exploration as `main` runs it (current room and
root the entrance of the mansion `main` builds, empty journal) has a result,
and its journal is not empty and contains the clue of the entrance; so `main`
has a result too, in which neither the message of the empty-journal branch
of `main` nor that of `verificarSuspeitoFinal` is written. -/
theorem C20_journal_never_empty (charSigned : Bool) (entrada : List Nat) :
    ∃ r, explorarSalas charSigned (tabelaDeMain charSigned) mansao .NULL mansao entrada
        = some r ∧
      r.diario ≠ .NULL ∧ pistaCasaco ∈ listarPistas r.diario ∧
      ∃ rm, main charSigned entrada = some rm ∧
        Mensagem.semExploracao ∉ rm.escrito ∧ Mensagem.arquivado ∉ rm.escrito := by
  have hsome := explorarSalas_isSome charSigned (tabelaDeMain charSigned) mansao .NULL
    mansao entrada
  obtain ⟨r, hr⟩ := Option.isSome_iff_exists.mp hsome
  have hmem : pistaCasaco ∈ listarPistas r.diario := by
    have hr2 := hr
    unfold explorarSalas at hr2
    rw [mansao_eq] at hr2
    simp only [explorarSalasAux] at hr2
    refine (explorarSalasAux_journal_mono charSigned (tabelaDeMain charSigned) _ pistaCasaco
      _).2 _ _ _ _ _ _ _ r ?_ hr2
    rw [visitarSala_fst]
    decide
  have hnull : r.diario ≠ .NULL := by
    intro h0
    rw [h0] at hmem
    simp [listarPistas] at hmem
  have hexp := explorarSalas_daExploracao charSigned (tabelaDeMain charSigned) mansao .NULL
    mansao entrada r hr
  refine ⟨r, hr, hnull, hmem, ?_⟩
  cases r with
  | travou b s =>
    refine ⟨.travou b (.titulo :: s), by simp [main, hr], ?_, ?_⟩
    · simp only [Resultado.escrito, List.mem_cons, not_or]
      exact ⟨by simp, not_mem_of_daExploracao s _ hexp rfl⟩
    · simp only [Resultado.escrito, List.mem_cons, not_or]
      exact ⟨by simp, not_mem_of_daExploracao s _ hexp rfl⟩
  | retornou b resto s =>
    simp only [Resultado.diario] at hnull
    simp only [Resultado.escrito] at hexp
    have hv := verificarSuspeitoFinal_escrito charSigned (tabelaDeMain charSigned) b resto
      hnull
    cases hvr : verificarSuspeitoFinal charSigned (tabelaDeMain charSigned) b resto with
    | retornou b2 r2 sf =>
      rw [hvr] at hv
      simp only [Resultado.escrito] at hv
      refine ⟨.retornou b2 r2 (.titulo :: s ++ sf ++ [.fimDoJogo]),
        by simp [main, hr, hnull, hvr], ?_, ?_⟩
      · simp only [Resultado.escrito, List.cons_append, List.mem_cons, List.mem_append,
          List.mem_singleton, List.not_mem_nil, not_or]
        exact ⟨by simp, ⟨not_mem_of_daExploracao s _ hexp rfl, hv.2⟩, by simp, by simp⟩
      · simp only [Resultado.escrito, List.cons_append, List.mem_cons, List.mem_append,
          List.mem_singleton, List.not_mem_nil, not_or]
        exact ⟨by simp, ⟨not_mem_of_daExploracao s _ hexp rfl, hv.1⟩, by simp, by simp⟩
    | travou b2 sf =>
      rw [hvr] at hv
      simp only [Resultado.escrito] at hv
      refine ⟨.travou b2 (.titulo :: s ++ sf), by simp [main, hr, hnull, hvr], ?_, ?_⟩
      · simp only [Resultado.escrito, List.cons_append, List.mem_cons, List.mem_append,
          not_or]
        exact ⟨by simp, not_mem_of_daExploracao s _ hexp rfl, hv.2⟩
      · simp only [Resultado.escrito, List.cons_append, List.mem_cons, List.mem_append,
          not_or]
        exact ⟨by simp, not_mem_of_daExploracao s _ hexp rfl, hv.1⟩

theorem pistasEncontradas_append (a b : List Mensagem) :
    pistasEncontradas (a ++ b) = pistasEncontradas a ++ pistasEncontradas b := by
  induction a with
  | nil => rfl
  | cons m a ih => cases m <;> simp [pistasEncontradas, ih]

theorem pistasEncontradas_visitarSala (charSigned : Bool) (tabelaHash : TabelaHash)
    (nome pista : List Nat) (bst : PistaColetada) :
    pistasEncontradas (visitarSala charSigned tabelaHash nome pista bst []).2
      = if 0 < pista.length then [pista] else [] := by
  unfold visitarSala
  split_ifs
  · cases encontrarSuspeito charSigned tabelaHash pista <;> rfl
  · rfl

theorem salasVisitadas_visitarSala (charSigned : Bool) (tabelaHash : TabelaHash)
    (nome pista : List Nat) (bst : PistaColetada) :
    salasVisitadas (visitarSala charSigned tabelaHash nome pista bst []).2 = [nome] := by
  unfold visitarSala
  split_ifs
  · cases encontrarSuspeito charSigned tabelaHash pista <;> rfl
  · rfl

theorem Comodo.salas_subset (c raiz : Comodo) (h : c ∈ raiz.salas) :
    ∀ x ∈ c.salas, x ∈ raiz.salas := by
  induction raiz with
  | NULL => simp [Comodo.salas] at h
  | sala n p e d ihe ihd =>
    simp only [Comodo.salas, List.mem_cons, List.mem_append] at h
    intro x hx
    rcases h with h | h | h
    · rw [h] at hx
      exact hx
    · simp only [Comodo.salas, List.mem_cons, List.mem_append]
      exact Or.inr (Or.inl (ihe h x hx))
    · simp only [Comodo.salas, List.mem_cons, List.mem_append]
      exact Or.inr (Or.inr (ihd h x hx))

theorem Comodo.filhos_mem_salas (raiz : Comodo) (n p : List Nat) (e d : Comodo)
    (h : Comodo.sala n p e d ∈ raiz.salas) :
    (e = .NULL ∨ e ∈ raiz.salas) ∧ (d = .NULL ∨ d ∈ raiz.salas) := by
  have hsub := Comodo.salas_subset _ raiz h
  constructor
  · cases e with
    | NULL => exact Or.inl rfl
    | sala n2 p2 e2 d2 =>
      exact Or.inr (hsub _ (by simp [Comodo.salas]))
  · cases d with
    | NULL => exact Or.inl rfl
    | sala n2 p2 e2 d2 =>
      exact Or.inr (hsub _ (by simp [Comodo.salas]))

theorem Comodo.bemFormado_sala (n p : List Nat) (e d : Comodo)
    (h : (Comodo.sala n p e d).bemFormado = true) :
    p.length ≤ MAX_PISTA - 1 ∧ e.bemFormado = true ∧ d.bemFormado = true := by
  simp only [Comodo.bemFormado, Bool.and_eq_true, decide_eq_true_eq] at h
  exact ⟨h.1.1.2, h.1.2, h.2⟩

/-- The texts of the journal after an exploration from the root with an empty
journal are exactly the clues announced in its output, and every clue
announced is the clue, not empty, of a room of the mansion. -/
theorem explorarSalas_diario_pistasEncontradas (charSigned : Bool)
    (tabelaHash : TabelaHash) (raiz : Comodo) (entrada : List Nat)
    (hwf : raiz.bemFormado = true) :
    ∃ r, explorarSalas charSigned tabelaHash raiz .NULL raiz entrada = some r ∧
      (∀ t, t ∈ listarPistas r.diario ↔ t ∈ pistasEncontradas r.escrito) ∧
      (∀ t ∈ pistasEncontradas r.escrito, t ≠ [] ∧ ∃ c ∈ raiz.salas, c.pistaDe = t) ∧
      ∀ (nome pista : List Nat) (bst : PistaColetada),
        salasVisitadas (visitarSala charSigned tabelaHash nome pista bst []).2 = [nome] ∧
        pistasEncontradas (visitarSala charSigned tabelaHash nome pista bst []).2
          = if 0 < pista.length then [pista] else [] := by
  have hsome := explorarSalas_isSome charSigned tabelaHash raiz .NULL raiz entrada
  obtain ⟨r, hr⟩ := Option.isSome_iff_exists.mp hsome
  have hraizW : raiz.bemFormado = true ∧ (raiz = .NULL ∨ raiz ∈ raiz.salas) := by
    refine ⟨hwf, ?_⟩
    cases raiz with
    | NULL => exact Or.inl rfl
    | sala n p e d => exact Or.inr (by simp [Comodo.salas])
  have hinv := (explorarSalasAux_invariante charSigned tabelaHash raiz
    (fun c => c.bemFormado = true ∧ (c = .NULL ∨ c ∈ raiz.salas))
    (fun bst saida => (∀ t, t ∈ listarPistas bst ↔ t ∈ pistasEncontradas saida) ∧
      (∀ t ∈ pistasEncontradas saida, t ≠ [] ∧ ∃ c ∈ raiz.salas, c.pistaDe = t))
    ?_ hraizW ?_ ?_ (entrada.length + 2)).1 raiz .NULL entrada [] r hraizW ?_ hr
  · exact ⟨r, hr, hinv.1, hinv.2, fun nome pista bst =>
      ⟨salasVisitadas_visitarSala charSigned tabelaHash nome pista bst,
        pistasEncontradas_visitarSala charSigned tabelaHash nome pista bst⟩⟩
  · intro n p e d hw
    obtain ⟨hb, hm⟩ := hw
    have hb2 := Comodo.bemFormado_sala n p e d hb
    rcases hm with hm | hm
    · cases hm
    · have hf := Comodo.filhos_mem_salas raiz n p e d hm
      exact ⟨⟨hb2.2.1, hf.1⟩, ⟨hb2.2.2, hf.2⟩⟩
  · intro n p e d bst saida hw hj
    obtain ⟨hb, hm⟩ := hw
    have hp := (Comodo.bemFormado_sala n p e d hb).1
    have hroom : Comodo.sala n p e d ∈ raiz.salas := by
      rcases hm with hm | hm
      · cases hm
      · exact hm
    rw [visitarSala_fst, visitarSala_snd, pistasEncontradas_append,
      pistasEncontradas_visitarSala]
    by_cases hpos : 0 < p.length
    · simp only [if_pos hpos]
      refine ⟨?_, ?_⟩
      · intro t
        rw [mem_adicionarPista_iff bst p t hp, hj.1 t]
        simp
      · intro t ht
        rcases List.mem_append.mp ht with h | h
        · exact hj.2 t h
        · have htp : t = p := by simpa using h
          rw [htp]
          exact ⟨fun h0 => by rw [h0] at hpos; exact absurd hpos (by decide),
            ⟨_, hroom, rfl⟩⟩
    · simp only [if_neg hpos, List.append_nil]
      exact hj
  · intro bst saida m hm hj
    have hnil : pistasEncontradas [m] = [] := by
      simp only [List.mem_cons, List.mem_singleton, List.not_mem_nil, or_false] at hm
      rcases hm with h | h | h | h | h | h | h <;> rw [h] <;> rfl
    rw [pistasEncontradas_append, hnil, List.append_nil]
    exact hj
  · exact ⟨fun t => by simp [listarPistas, pistasEncontradas], fun t ht => by
      simp [pistasEncontradas] at ht⟩

theorem lerEscolha_eq_some (entrada resto : List Nat) (escolha : Nat)
    (h : lerEscolha entrada = some (escolha, resto)) :
    ∃ c r1, scanfChar entrada = some (c, r1) ∧ descartarLinha r1 = some resto ∧
      tolower c = escolha := by
  unfold lerEscolha at h
  cases h1 : scanfChar entrada with
  | none => simp [h1] at h
  | some par =>
    obtain ⟨c, r1⟩ := par
    cases h2 : descartarLinha r1 with
    | none => simp [h1, h2] at h
    | some r2 =>
      simp only [h1, h2, Option.some.injEq, Prod.mk.injEq] at h
      exact ⟨c, r1, rfl, by rw [h2, h.2], h.1⟩

/-- One pass of the loop of `explorarSalas` follows `proximoEstado`: when the
choice read leads to a next state, the loop goes on in that state on the rest
of the input. -/
theorem explorarSalasLaco_proximoEstado (charSigned : Bool) (tabelaHash : TabelaHash)
    (raiz : Comodo) (k : Nat) (n p : List Nat) (e d : Comodo) (bst : PistaColetada)
    (entrada resto : List Nat) (escolha : Nat) (saida : List Mensagem)
    (seguinte : Comodo × PistaColetada)
    (hler : lerEscolha entrada = some (escolha, resto))
    (hprox : proximoEstado charSigned tabelaHash raiz (.sala n p e d) bst escolha
      = some seguinte) :
    ∃ n2 p2 e2 d2 k2 saida2, seguinte.1 = .sala n2 p2 e2 d2 ∧ k ≤ k2 ∧ k2 ≤ k + 1 ∧
      explorarSalasLaco charSigned tabelaHash raiz (k + 2) n p e d bst entrada saida
        = explorarSalasLaco charSigned tabelaHash raiz k2 n2 p2 e2 d2 seguinte.2 resto
            saida2 := by
  obtain ⟨c, r1, h1, h2, h3⟩ := lerEscolha_eq_some entrada resto escolha hler
  simp only [proximoEstado] at hprox
  cases hp : passo raiz n p e d escolha with
  | entrar destino =>
    cases destino with
    | NULL => simp [hp] at hprox
    | sala n2 p2 e2 d2 =>
      simp only [hp, Option.some.injEq] at hprox
      subst hprox
      refine ⟨n2, p2, e2, d2, k,
        (visitarSala charSigned tabelaHash n2 p2 bst (saida ++ [.paraOnde])).2, rfl,
        Nat.le_refl _, Nat.le_succ _, ?_⟩
      simp only [explorarSalasLaco, h1, h2, h3, hp, explorarSalasAux]
      rw [visitarSala_fst, visitarSala_fst]
  | ficar m =>
    simp only [hp, Option.some.injEq] at hprox
    subst hprox
    refine ⟨n, p, e, d, k + 1, saida ++ [.paraOnde] ++ [m], rfl, Nat.le_succ _,
      Nat.le_refl _, ?_⟩
    simp only [explorarSalasLaco, h1, h2, h3, hp]
  | sair => simp [hp] at hprox

/-- The loop of `explorarSalas` follows `estadoApos`: on an input that gives
the choices `escolhas` and then `resto`, the loop started in a state goes on,
in the state after these choices, on `resto`. -/
theorem explorarSalasLaco_estadoApos (charSigned : Bool) (tabelaHash : TabelaHash)
    (raiz : Comodo) (escolhas : List Nat) :
    ∀ (k : Nat) (n p : List Nat) (e d : Comodo) (bst : PistaColetada)
      (entrada resto : List Nat) (saida : List Mensagem) (final : Comodo × PistaColetada),
      lerEscolhas entrada escolhas = some resto →
      estadoApos charSigned tabelaHash raiz (.sala n p e d, bst) escolhas = some final →
      ∃ n2 p2 e2 d2 k2 saida2, final.1 = .sala n2 p2 e2 d2 ∧ k ≤ k2 ∧
        explorarSalasLaco charSigned tabelaHash raiz (k + 2 * escolhas.length) n p e d bst
            entrada saida
          = explorarSalasLaco charSigned tabelaHash raiz k2 n2 p2 e2 d2 final.2 resto
              saida2 := by
  induction escolhas with
  | nil =>
    intro k n p e d bst entrada resto saida final hler hest
    simp only [lerEscolhas, Option.some.injEq] at hler
    simp only [estadoApos, Option.some.injEq] at hest
    refine ⟨n, p, e, d, k, saida, by rw [← hest], Nat.le_refl _, ?_⟩
    rw [← hest, ← hler]
    rfl
  | cons escolha escolhas ih =>
    intro k n p e d bst entrada resto saida final hler hest
    simp only [lerEscolhas] at hler
    cases hl : lerEscolha entrada with
    | none => simp [hl] at hler
    | some par =>
      obtain ⟨lida, r⟩ := par
      simp only [hl] at hler
      split_ifs at hler with hlida
      simp only [estadoApos] at hest
      cases hpx : proximoEstado charSigned tabelaHash raiz (.sala n p e d) bst escolha with
      | none => simp [hpx] at hest
      | some seguinte =>
        simp only [hpx] at hest
        rw [hlida] at hl
        obtain ⟨n1, p1, e1, d1, k1, saida1, hs1, hk1, _, hstep⟩ :=
          explorarSalasLaco_proximoEstado charSigned tabelaHash raiz
            (k + 2 * escolhas.length) n p e d bst entrada r escolha saida seguinte hl hpx
        have hseg : seguinte = (.sala n1 p1 e1 d1, seguinte.2) := by
          rw [← hs1]
        rw [hseg] at hest
        obtain ⟨n2, p2, e2, d2, k2, saida2, hf, hk2, hrest⟩ :=
          ih (k1 - 2 * escolhas.length) n1 p1 e1 d1 seguinte.2 r resto saida1 final hler
            hest
        refine ⟨n2, p2, e2, d2, k2, saida2, hf, by omega, ?_⟩
        have hfuel : k + 2 * (escolha :: escolhas).length
            = k + 2 * escolhas.length + 2 := by
          simp only [List.length_cons]
          omega
        have hk1' : k1 - 2 * escolhas.length + 2 * escolhas.length = k1 := by omega
        rw [hfuel, hstep, ← hrest, hk1']

theorem lerEscolhas_length (escolhas : List Nat) :
    ∀ entrada resto : List Nat, lerEscolhas entrada escolhas = some resto →
      resto.length + 2 * escolhas.length ≤ entrada.length := by
  induction escolhas with
  | nil =>
    intro entrada resto h
    simp only [lerEscolhas, Option.some.injEq] at h
    simp [h]
  | cons escolha escolhas ih =>
    intro entrada resto h
    simp only [lerEscolhas] at h
    cases hl : lerEscolha entrada with
    | none => simp [hl] at h
    | some par =>
      obtain ⟨lida, r⟩ := par
      simp only [hl] at h
      split_ifs at h with hlida
      obtain ⟨c, r1, h1, h2, _⟩ := lerEscolha_eq_some entrada r lida hl
      have l1 := scanfChar_length entrada r1 c h1
      have l2 := descartarLinha_length r1 r h2
      have l3 := ih r resto h
      simp only [List.length_cons]
      omega

/-- The call of `explorarSalas` at the root follows `estadoInicial` and
`estadoApos`: on an input that gives the choices `escolhas` and then `resto`,
the call reaches the loop in the state after these choices, on `resto`, with
a bound that is enough for `resto`. -/
theorem explorarSalas_estadoApos (charSigned : Bool) (tabelaHash : TabelaHash)
    (raiz : Comodo) (bst0 : PistaColetada) (escolhas entrada resto : List Nat)
    (inicial final : Comodo × PistaColetada)
    (hini : estadoInicial charSigned tabelaHash raiz bst0 = some inicial)
    (hler : lerEscolhas entrada escolhas = some resto)
    (hest : estadoApos charSigned tabelaHash raiz inicial escolhas = some final) :
    ∃ n2 p2 e2 d2 k2 saida2, final.1 = .sala n2 p2 e2 d2 ∧ resto.length + 1 ≤ k2 ∧
      explorarSalas charSigned tabelaHash raiz bst0 raiz entrada
        = explorarSalasLaco charSigned tabelaHash raiz k2 n2 p2 e2 d2 final.2 resto
            saida2 := by
  cases raiz with
  | NULL => simp [estadoInicial] at hini
  | sala rn rp re rd =>
    simp only [estadoInicial, Option.some.injEq] at hini
    subst hini
    have hlen := lerEscolhas_length escolhas entrada resto hler
    obtain ⟨n2, p2, e2, d2, k2, saida2, hf, hk, hrun⟩ :=
      explorarSalasLaco_estadoApos charSigned tabelaHash (.sala rn rp re rd) escolhas
        (entrada.length + 1 - 2 * escolhas.length) rn rp re rd
        (visitarSala charSigned tabelaHash rn rp bst0 []).1 entrada resto
        (visitarSala charSigned tabelaHash rn rp bst0 []).2 final hler hest
    refine ⟨n2, p2, e2, d2, k2, saida2, hf, by omega, ?_⟩
    have hfuel : entrada.length + 1 - 2 * escolhas.length + 2 * escolhas.length
        = entrada.length + 1 := by omega
    rw [hfuel] at hrun
    simp only [explorarSalas, explorarSalasAux]
    exact hrun

theorem adicionarPista_fixo (b : PistaColetada) (t x : List Nat)
    (h : adicionarPista b x = b) :
    adicionarPista (adicionarPista b t) x = adicionarPista b t := by
  induction b with
  | NULL => simp [adicionarPista] at h
  | no d e r ihe ihr =>
    simp only [adicionarPista] at h
    by_cases hx1 : strcmp x d < 0
    · simp only [if_pos hx1, PistaColetada.no.injEq, true_and, and_true] at h
      simp only [adicionarPista]
      split_ifs
      · simp only [adicionarPista, if_pos hx1, ihe h]
      · simp only [adicionarPista, if_pos hx1, h]
      · simp only [adicionarPista, if_pos hx1, h]
    · by_cases hx2 : strcmp x d > 0
      · simp only [if_neg hx1, if_pos hx2, PistaColetada.no.injEq, true_and] at h
        simp only [adicionarPista]
        split_ifs
        · simp only [adicionarPista, if_neg hx1, if_pos hx2, h]
        · simp only [adicionarPista, if_neg hx1, if_pos hx2, ihr h]
        · simp only [adicionarPista, if_neg hx1, if_pos hx2, h]
      · simp only [adicionarPista]
        split_ifs <;> simp only [adicionarPista, if_neg hx1, if_neg hx2]

theorem visitarSala_fixo (charSigned : Bool) (tabelaHash : TabelaHash)
    (n p x : List Nat) (b : PistaColetada) (h : adicionarPista b x = b) :
    adicionarPista (visitarSala charSigned tabelaHash n p b []).1 x
      = (visitarSala charSigned tabelaHash n p b []).1 := by
  rw [visitarSala_fst]
  split_ifs
  · exact adicionarPista_fixo b p x h
  · exact h

theorem estadoApos_fixo (charSigned : Bool) (tabelaHash : TabelaHash) (raiz : Comodo)
    (x : List Nat) (escolhas : List Nat) :
    ∀ estado final : Comodo × PistaColetada,
      adicionarPista estado.2 x = estado.2 →
      estadoApos charSigned tabelaHash raiz estado escolhas = some final →
      adicionarPista final.2 x = final.2 := by
  induction escolhas with
  | nil =>
    intro estado final h hest
    simp only [estadoApos, Option.some.injEq] at hest
    rw [← hest]
    exact h
  | cons escolha escolhas ih =>
    intro estado final h hest
    simp only [estadoApos] at hest
    cases hpx : proximoEstado charSigned tabelaHash raiz estado.1 estado.2 escolha with
    | none => simp [hpx] at hest
    | some seguinte =>
      simp only [hpx] at hest
      refine ih seguinte final ?_ hest
      unfold proximoEstado at hpx
      cases hat : estado.1 with
      | NULL => simp [hat] at hpx
      | sala n p e d =>
        simp only [hat] at hpx
        cases hp : passo raiz n p e d escolha with
        | entrar destino =>
          cases destino with
          | NULL => simp [hp] at hpx
          | sala n2 p2 e2 d2 =>
            simp only [hp, Option.some.injEq] at hpx
            rw [← hpx]
            exact visitarSala_fixo charSigned tabelaHash n2 p2 x estado.2 h
        | ficar m =>
          simp only [hp, Option.some.injEq] at hpx
          rw [← hpx]
          exact h
        | sair => simp [hp] at hpx

/-- C15: in every state reachable during an exploration that started at the
root (with any journal), the return-to-root command given in a room that is
not the root makes the root the current room, and entering the root again
leaves the journal, hence its listing, unchanged: the clue of the root is in
the journal since the first visit, so its insertion does nothing.  The loop
of `explorarSalas` that reads this command goes on in the root with the same
journal. -/
theorem C15_return_to_root_keeps_journal (charSigned : Bool) (tabelaHash : TabelaHash)
    (raiz : Comodo) (bst0 : PistaColetada) (inicial : Comodo × PistaColetada)
    (escolhas : List Nat) (n p : List Nat) (e d : Comodo) (bst : PistaColetada)
    (hp : raiz.pistaDe.length ≤ MAX_PISTA - 1)
    (hini : estadoInicial charSigned tabelaHash raiz bst0 = some inicial)
    (hest : estadoApos charSigned tabelaHash raiz inicial escolhas
      = some (.sala n p e d, bst))
    (hne : Comodo.sala n p e d ≠ raiz) :
    ∃ rn rp re rd, raiz = .sala rn rp re rd ∧
      passo raiz n p e d 114 = .entrar raiz ∧
      proximoEstado charSigned tabelaHash raiz (.sala n p e d) bst 114 = some (raiz, bst) ∧
      listarPistas (visitarSala charSigned tabelaHash rn rp bst []).1 = listarPistas bst ∧
      ∀ (k : Nat) (entrada resto : List Nat) (saida : List Mensagem),
        lerEscolha entrada = some (114, resto) →
        explorarSalasLaco charSigned tabelaHash raiz (k + 2) n p e d bst entrada saida
          = explorarSalasLaco charSigned tabelaHash raiz k rn rp re rd bst resto
              (visitarSala charSigned tabelaHash rn rp bst (saida ++ [.paraOnde])).2 := by
  cases raiz with
  | NULL => simp [estadoInicial] at hini
  | sala rn rp re rd =>
    simp only [Comodo.pistaDe] at hp
    simp only [estadoInicial, Option.some.injEq] at hini
    have hfix0 : 0 < rp.length → adicionarPista inicial.2 rp = inicial.2 := by
      intro hpos
      rw [← hini]
      simp only [visitarSala_fst, if_pos hpos]
      exact adicionarPista_twice bst0 rp hp
    have hvis : (visitarSala charSigned tabelaHash rn rp bst []).1 = bst := by
      rw [visitarSala_fst]
      split_ifs with hpos
      · exact estadoApos_fixo charSigned tabelaHash (.sala rn rp re rd) rp escolhas inicial
          (.sala n p e d, bst) (hfix0 hpos) hest
      · rfl
    have hpasso : passo (.sala rn rp re rd) n p e d 114 = .entrar (.sala rn rp re rd) := by
      simp [passo, hne]
    refine ⟨rn, rp, re, rd, rfl, hpasso, ?_, by rw [hvis], ?_⟩
    · simp only [proximoEstado, hpasso, hvis]
    · intro k entrada resto saida hler
      obtain ⟨c, r1, h1, h2, h3⟩ := lerEscolha_eq_some entrada resto 114 hler
      simp only [explorarSalasLaco, h1, h2, h3, hpasso, explorarSalasAux]
      rw [visitarSala_fst]
      rw [visitarSala_fst] at hvis
      rw [hvis]

set_option maxRecDepth 100000 in
theorem C15_return_to_root_keeps_journal_witness :
    mansao.pistaDe.length ≤ MAX_PISTA - 1 ∧
      estadoInicial true (tabelaDeMain true) mansao .NULL
        = some (mansao, inserirTodas [pistaCasaco]) ∧
      estadoApos true (tabelaDeMain true) mansao (mansao, inserirTodas [pistaCasaco])
          [101, 101]
        = some (.sala nomeBiblioteca pistaLivro .NULL .NULL,
            inserirTodas [pistaCasaco, pistaCinzeiro, pistaLivro]) ∧
      Comodo.sala nomeBiblioteca pistaLivro .NULL .NULL ≠ mansao ∧
      (explorarSalas true (tabelaDeMain true) mansao .NULL mansao
          [101, 10, 101, 10, 114, 10, 115, 10]).map
          (fun r => (salasVisitadas r.escrito, listarPistas r.diario))
        = some ([nomeEntradaPrincipal, nomeSalaDeEstar, nomeBiblioteca,
              nomeEntradaPrincipal],
            listarPistas (inserirTodas [pistaCasaco, pistaCinzeiro, pistaLivro])) ∧
      ∃ rn rp re rd, mansao = .sala rn rp re rd ∧
        passo mansao nomeBiblioteca pistaLivro .NULL .NULL 114 = .entrar mansao ∧
        proximoEstado true (tabelaDeMain true) mansao
            (.sala nomeBiblioteca pistaLivro .NULL .NULL)
            (inserirTodas [pistaCasaco, pistaCinzeiro, pistaLivro]) 114
          = some (mansao, inserirTodas [pistaCasaco, pistaCinzeiro, pistaLivro]) ∧
        listarPistas (visitarSala true (tabelaDeMain true) rn rp
            (inserirTodas [pistaCasaco, pistaCinzeiro, pistaLivro]) []).1
          = listarPistas (inserirTodas [pistaCasaco, pistaCinzeiro, pistaLivro]) ∧
        ∀ (k : Nat) (entrada resto : List Nat) (saida : List Mensagem),
          lerEscolha entrada = some (114, resto) →
          explorarSalasLaco true (tabelaDeMain true) mansao (k + 2) nomeBiblioteca
              pistaLivro .NULL .NULL
              (inserirTodas [pistaCasaco, pistaCinzeiro, pistaLivro]) entrada saida
            = explorarSalasLaco true (tabelaDeMain true) mansao k rn rp re rd
                (inserirTodas [pistaCasaco, pistaCinzeiro, pistaLivro]) resto
                (visitarSala true (tabelaDeMain true) rn rp
                  (inserirTodas [pistaCasaco, pistaCinzeiro, pistaLivro])
                  (saida ++ [.paraOnde])).2 :=
  ⟨by decide, by decide, by decide, by decide, by decide,
    C15_return_to_root_keeps_journal true (tabelaDeMain true) mansao .NULL
      (mansao, inserirTodas [pistaCasaco]) [101, 101] nomeBiblioteca pistaLivro .NULL .NULL
      (inserirTodas [pistaCasaco, pistaCinzeiro, pistaLivro]) (by decide) (by decide)
      (by decide) (by decide)⟩

/-! ## The rooms entered and the journal -/

theorem salasVisitadas_append (a b : List Mensagem) :
    salasVisitadas (a ++ b) = salasVisitadas a ++ salasVisitadas b := by
  induction a with
  | nil => rfl
  | cons m a ih => cases m <;> simp [salasVisitadas, ih]

theorem continuaCom_fim (raiz : Comodo) (bst : PistaColetada) (saida : List Mensagem)
    (r : Resultado) (hd : r.diario = bst) (he : r.escrito = saida) :
    ContinuaCom raiz bst saida [] r := by
  refine ⟨by simp [he], by simp [he], ?_, ?_⟩
  · intro t
    simp [hd]
  · intro c hc
    simp at hc

theorem continuaCom_mensagem (raiz : Comodo) (bst : PistaColetada)
    (saida : List Mensagem) (m : Mensagem) (entradas : List Comodo) (r : Resultado)
    (hm : m ∈ [Mensagem.naoPodeIr, .paraOnde, .bloqueadoEsquerda, .bloqueadoDireita,
      .jaNaRaiz, .opcaoInvalida, .saindo])
    (h : ContinuaCom raiz bst (saida ++ [m]) entradas r) :
    ContinuaCom raiz bst saida entradas r := by
  have hs : salasVisitadas [m] = [] := by
    simp only [List.mem_cons, List.mem_singleton, List.not_mem_nil, or_false] at hm
    rcases hm with h | h | h | h | h | h | h <;> rw [h] <;> rfl
  have hp : pistasEncontradas [m] = [] := by
    simp only [List.mem_cons, List.mem_singleton, List.not_mem_nil, or_false] at hm
    rcases hm with h | h | h | h | h | h | h <;> rw [h] <;> rfl
  obtain ⟨h1, h2, h3, h4⟩ := h
  rw [salasVisitadas_append, hs, List.append_nil] at h1
  rw [pistasEncontradas_append, hp, List.append_nil] at h2
  exact ⟨h1, h2, h3, h4⟩

theorem continuaCom_visita (charSigned : Bool) (tabelaHash : TabelaHash) (raiz : Comodo)
    (n p : List Nat) (e d : Comodo) (bst : PistaColetada) (saida : List Mensagem)
    (entradas : List Comodo) (r : Resultado) (hp : p.length ≤ MAX_PISTA - 1)
    (hroom : Comodo.sala n p e d ∈ raiz.salas)
    (h : ContinuaCom raiz (visitarSala charSigned tabelaHash n p bst saida).1
      (visitarSala charSigned tabelaHash n p bst saida).2 entradas r) :
    ContinuaCom raiz bst saida (.sala n p e d :: entradas) r := by
  obtain ⟨h1, h2, h3, h4⟩ := h
  rw [visitarSala_snd, salasVisitadas_append, salasVisitadas_visitarSala] at h1
  rw [visitarSala_snd, pistasEncontradas_append, pistasEncontradas_visitarSala] at h2
  rw [visitarSala_fst] at h3
  refine ⟨?_, ?_, ?_, ?_⟩
  · rw [h1]
    simp [Comodo.nomeDe]
  · rw [h2]
    by_cases hpos : 0 < p.length
    · simp [Comodo.pistaDe, hpos]
    · simp [Comodo.pistaDe, hpos]
  · intro t
    rw [h3 t]
    by_cases hpos : 0 < p.length
    · simp only [if_pos hpos, mem_adicionarPista_iff bst p t hp, List.mem_cons,
        exists_eq_or_imp, Comodo.pistaDe]
      have hne : t = p → t ≠ [] := by
        intro htp h0
        rw [htp] at h0
        rw [h0] at hpos
        exact absurd hpos (by decide)
      constructor
      · rintro ((h | h) | h)
        · exact Or.inl h
        · exact Or.inr (Or.inl ⟨h.symm, hne h⟩)
        · exact Or.inr (Or.inr h)
      · rintro (h | h | h)
        · exact Or.inl (Or.inl h)
        · exact Or.inl (Or.inr h.1.symm)
        · exact Or.inr h
    · simp only [if_neg hpos, List.mem_cons, exists_eq_or_imp, Comodo.pistaDe]
      have hnil : p = [] := by
        cases p with
        | nil => rfl
        | cons a l => simp at hpos
      constructor
      · rintro (h | h)
        · exact Or.inl h
        · exact Or.inr (Or.inr h)
      · rintro (h | h | h)
        · exact Or.inl h
        · exact absurd (h.1.symm.trans hnil) h.2
        · exact Or.inr h
  · intro c hc
    rcases List.mem_cons.mp hc with h | h
    · rw [h]
      exact hroom
    · exact h4 c h

/-- The exploration enters exactly the rooms of `salasEntradasAux`: the
result of a call of `explorarSalas` continues the journal and the output of
the call by these rooms. -/
theorem explorarSalasAux_salasEntradas (charSigned : Bool) (tabelaHash : TabelaHash)
    (raiz : Comodo)
    (hraiz : raiz.bemFormado = true ∧ (raiz = .NULL ∨ raiz ∈ raiz.salas)) (k : Nat) :
    (∀ atual bst entrada saida r,
      atual.bemFormado = true ∧ (atual = .NULL ∨ atual ∈ raiz.salas) →
      explorarSalasAux charSigned tabelaHash raiz k atual bst entrada saida = some r →
      ContinuaCom raiz bst saida (salasEntradasAux raiz k atual entrada) r) ∧
    (∀ n p e d bst entrada saida r,
      (Comodo.sala n p e d).bemFormado = true ∧ Comodo.sala n p e d ∈ raiz.salas →
      explorarSalasLaco charSigned tabelaHash raiz k n p e d bst entrada saida = some r →
      ContinuaCom raiz bst saida (salasEntradasLaco raiz k n p e d entrada) r) := by
  induction k with
  | zero =>
    refine ⟨?_, ?_⟩
    · intro atual bst entrada saida r _ h
      simp [explorarSalasAux] at h
    · intro n p e d bst entrada saida r _ h
      simp [explorarSalasLaco] at h
  | succ k ih =>
    obtain ⟨ihE, ihL⟩ := ih
    refine ⟨?_, ?_⟩
    · intro atual bst entrada saida r hw h
      cases atual with
      | NULL =>
        simp only [explorarSalasAux, Option.some.injEq] at h
        simp only [salasEntradasAux]
        apply continuaCom_mensagem raiz bst saida .naoPodeIr [] r (by simp)
        rw [← h]
        exact continuaCom_fim raiz bst _ _ rfl rfl
      | sala n p e d =>
        have hroom : Comodo.sala n p e d ∈ raiz.salas := by
          rcases hw.2 with h0 | h0
          · cases h0
          · exact h0
        simp only [explorarSalasAux] at h
        simp only [salasEntradasAux]
        exact continuaCom_visita charSigned tabelaHash raiz n p e d bst saida _ r
          (Comodo.bemFormado_sala n p e d hw.1).1 hroom
          (ihL n p e d _ entrada _ r ⟨hw.1, hroom⟩ h)
    · intro n p e d bst entrada saida r hw h
      simp only [explorarSalasLaco] at h
      cases h1 : scanfChar entrada with
      | none =>
        simp only [h1, Option.some.injEq] at h
        simp only [salasEntradasLaco, lerEscolha, h1]
        apply continuaCom_mensagem raiz bst saida .paraOnde [] r (by simp)
        rw [← h]
        exact continuaCom_fim raiz bst _ _ rfl rfl
      | some par =>
        obtain ⟨escolha, r1⟩ := par
        cases h2 : descartarLinha r1 with
        | none =>
          simp only [h1, h2, Option.some.injEq] at h
          simp only [salasEntradasLaco, lerEscolha, h1, h2]
          apply continuaCom_mensagem raiz bst saida .paraOnde [] r (by simp)
          rw [← h]
          exact continuaCom_fim raiz bst _ _ rfl rfl
        | some r2 =>
          cases h3 : passo raiz n p e d (tolower escolha) with
          | entrar destino =>
            simp only [h1, h2, h3] at h
            simp only [salasEntradasLaco, lerEscolha, h1, h2, h3]
            have hb := Comodo.bemFormado_sala n p e d hw.1
            have hf := Comodo.filhos_mem_salas raiz n p e d hw.2
            have hwd : destino.bemFormado = true ∧
                (destino = .NULL ∨ destino ∈ raiz.salas) := by
              rcases passo_entrar raiz n p e d _ destino h3 with
                ⟨_, hd, _⟩ | ⟨_, hd, _⟩ | ⟨_, hd, _⟩
              · rw [hd]; exact ⟨hb.2.1, hf.1⟩
              · rw [hd]; exact ⟨hb.2.2, hf.2⟩
              · rw [hd]; exact hraiz
            exact continuaCom_mensagem raiz bst saida .paraOnde _ r (by simp)
              (ihE destino bst r2 _ r hwd h)
          | ficar mensagem =>
            simp only [h1, h2, h3] at h
            simp only [salasEntradasLaco, lerEscolha, h1, h2, h3]
            have hm := passo_ficar raiz n p e d _ mensagem h3
            apply continuaCom_mensagem raiz bst saida .paraOnde _ r (by simp)
            apply continuaCom_mensagem raiz bst _ mensagem _ r (by
              simp only [List.mem_cons, List.mem_singleton, List.not_mem_nil,
                or_false] at hm ⊢
              tauto)
            exact ihL n p e d bst r2 _ r hw h
          | sair =>
            simp only [h1, h2, h3, Option.some.injEq] at h
            simp only [salasEntradasLaco, lerEscolha, h1, h2, h3]
            apply continuaCom_mensagem raiz bst saida .paraOnde [] r (by simp)
            apply continuaCom_mensagem raiz bst _ .saindo [] r (by simp)
            rw [← h]
            exact continuaCom_fim raiz bst _ _ rfl rfl

/-- C14: for every input given to `explorarSalas` started at the root of a
mansion with an empty journal, the set of texts in the resulting journal is
the set of the non-empty clues of the rooms that were entered during the
exploration.  The rooms entered are those of `salasEntradas`, the rooms of
the calls of `explorarSalas` in order, all rooms of the mansion; the output
announces their names and their non-empty clues, in that order; a text is in
the journal exactly when it is the non-empty clue of one of these rooms, so
every entered room with a clue has it journaled and no text of the journal
comes from anywhere else. -/
theorem C14_journal_is_clues_of_entered_rooms (charSigned : Bool)
    (tabelaHash : TabelaHash) (raiz : Comodo) (entrada : List Nat)
    (hwf : raiz.bemFormado = true) :
    ∃ r, explorarSalas charSigned tabelaHash raiz .NULL raiz entrada = some r ∧
      salasVisitadas r.escrito = (salasEntradas raiz raiz entrada).map Comodo.nomeDe ∧
      pistasEncontradas r.escrito
        = ((salasEntradas raiz raiz entrada).map Comodo.pistaDe).filter
            (fun p => decide (0 < p.length)) ∧
      (∀ t, t ∈ listarPistas r.diario ↔
        ∃ c ∈ salasEntradas raiz raiz entrada, c.pistaDe = t ∧ t ≠ []) ∧
      (∀ c ∈ salasEntradas raiz raiz entrada, c ∈ raiz.salas) ∧
      (∀ t, t ∈ listarPistas r.diario ↔ t ∈ pistasEncontradas r.escrito) := by
  obtain ⟨r, hr, hiff, _, _⟩ :=
    explorarSalas_diario_pistasEncontradas charSigned tabelaHash raiz entrada hwf
  have hraizW : raiz.bemFormado = true ∧ (raiz = .NULL ∨ raiz ∈ raiz.salas) := by
    refine ⟨hwf, ?_⟩
    cases raiz with
    | NULL => exact Or.inl rfl
    | sala n p e d => exact Or.inr (by simp [Comodo.salas])
  have hc := (explorarSalasAux_salasEntradas charSigned tabelaHash raiz hraizW
    (entrada.length + 2)).1 raiz .NULL entrada [] r hraizW hr
  obtain ⟨h1, h2, h3, h4⟩ := hc
  refine ⟨r, hr, ?_, ?_, ?_, h4, hiff⟩
  · simpa [salasVisitadas, salasEntradas] using h1
  · simpa [pistasEncontradas, salasEntradas] using h2
  · intro t
    rw [h3 t]
    simp [listarPistas, salasEntradas]

set_option maxRecDepth 100000 in
theorem C14_journal_is_clues_of_entered_rooms_witness :
    mansao.bemFormado = true ∧
      salasEntradas mansao mansao [101, 10, 114, 10, 100, 10, 100, 10, 115, 10]
        = [mansao,
            ligar (criarSala nomeSalaDeEstar pistaCinzeiro)
              (criarSala nomeBiblioteca pistaLivro)
              (criarSala nomeQuartoDoMordomo pistaNotaDeAmor),
            mansao,
            ligar (criarSala nomeCozinha pistaFaca)
              (criarSala nomeDespensa pistaLuvas)
              (criarSala nomeJardim pistaBilhete),
            criarSala nomeJardim pistaBilhete] ∧
      (explorarSalas true (tabelaDeMain true) mansao .NULL mansao
          [101, 10, 114, 10, 100, 10, 100, 10, 115, 10]).map
          (fun r => (salasVisitadas r.escrito, pistasEncontradas r.escrito,
            listarPistas r.diario))
        = some ([nomeEntradaPrincipal, nomeSalaDeEstar, nomeEntradaPrincipal, nomeCozinha,
              nomeJardim],
            [pistaCasaco, pistaCinzeiro, pistaCasaco, pistaFaca, pistaBilhete],
            [pistaFaca, pistaCinzeiro, pistaBilhete, pistaCasaco]) ∧
      ∃ r, explorarSalas true (tabelaDeMain true) mansao .NULL mansao
          [101, 10, 114, 10, 100, 10, 100, 10, 115, 10] = some r ∧
        salasVisitadas r.escrito
          = (salasEntradas mansao mansao
              [101, 10, 114, 10, 100, 10, 100, 10, 115, 10]).map Comodo.nomeDe ∧
        pistasEncontradas r.escrito
          = ((salasEntradas mansao mansao
              [101, 10, 114, 10, 100, 10, 100, 10, 115, 10]).map Comodo.pistaDe).filter
              (fun p => decide (0 < p.length)) ∧
        (∀ t, t ∈ listarPistas r.diario ↔
          ∃ c ∈ salasEntradas mansao mansao
              [101, 10, 114, 10, 100, 10, 100, 10, 115, 10],
            c.pistaDe = t ∧ t ≠ []) ∧
        (∀ c ∈ salasEntradas mansao mansao
            [101, 10, 114, 10, 100, 10, 100, 10, 115, 10], c ∈ mansao.salas) ∧
        (∀ t, t ∈ listarPistas r.diario ↔ t ∈ pistasEncontradas r.escrito) :=
  ⟨by decide, by decide, by decide,
    C14_journal_is_clues_of_entered_rooms true (tabelaDeMain true) mansao
      [101, 10, 114, 10, 100, 10, 100, 10, 115, 10] (by decide)⟩

end DetectiveQuest
